import Mathlib

/-!
# Verification of the tsmorph declaration-extraction and type-reconciliation engine

Shallow embedding of the extraction scripts of the `tsmorph` repository:

* `scripts/refactor-tsx.ts` (`TSXRefactorer`): first pass, extracting
  interfaces / type aliases to a types file and pattern-matching variable
  bindings to a utils file, maintaining a merged named-import in the origin.
* `scripts/refactor-tsx-pass2.ts` (`TSXRefactorer2`): second pass, extracting
  arrow-function helper bindings from inside the main component's body.
* `scripts/analyze-types.ts` (`TypeAnalyzer`): type reconciliation pass.

Modules are modelled as lists of declarations plus a list of import bindings;
the project / disk state is explicit, and fallible `saveSync` calls are
modelled with `Except` where the error value carries the in-memory state at
the moment the exception propagates.
-/

namespace TsMorph

/-- A top-level declaration of the origin module: its name, its source text
and its line count (`end line − start line + 1`, as computed by
`getNodeLineCount`). -/
structure Decl where
  name : String
  text : String
  lineCount : Nat
deriving DecidableEq, Repr

/-- The `type` field of an `ExtractionCandidate` in `refactor-tsx.ts`
(`'function' | 'component' | 'interface' | 'type' | 'variable'`; the
`component` tag is never produced by `analyzeFile`). -/
inductive CandKind where
  | function
  | component
  | interface
  | typeAlias
  | variableDecl
deriving DecidableEq, Repr

/-- `ExtractionCandidate` of `refactor-tsx.ts`. -/
structure Candidate where
  name : String
  decl : Decl
  lineCount : Nat
  kind : CandKind
deriving DecidableEq, Repr

/-- One import declaration: module specifier together with its named
imports, in order. -/
abbrev ImportBinding := String × List String

/-- The origin module (`SourceFile`): its declarations by kind, and
its import declarations. -/
structure Module where
  functions : List Decl
  variableDecls : List Decl
  interfaces : List Decl
  typeAliases : List Decl
  imports : List ImportBinding
deriving DecidableEq, Repr

/-- `RefactorOptions` of `refactor-tsx.ts`.  The regular expression
`utilNamePattern` is modelled as a Boolean test on names; the module
specifiers computed by `toModuleSpecifier` are carried as abstract fields. -/
structure RefactorOptions where
  minFunctionLines : Nat
  minVariableLines : Nat
  utilNamePattern : String → Bool
  /-- `toModuleSpecifier(targetFile, typesFile)`. -/
  typesSpecifier : String
  /-- `toModuleSpecifier(targetFile, utilsFile)`. -/
  utilsSpecifier : String
  /-- `toModuleSpecifier(utilsFile, typesFile)`. -/
  typesFromUtilsSpecifier : String

/-- Build an `ExtractionCandidate` from a declaration, as the pushes in
`analyzeFile` do. -/
def mkCand (k : CandKind) (d : Decl) : Candidate :=
  { name := d.name, decl := d, lineCount := d.lineCount, kind := k }

/-- `TSXRefactorer.analyzeFile`: functions above `minFunctionLines`,
variable declarations above `minVariableLines`, and every interface and
type alias, in that order. -/
def analyzeFile (opts : RefactorOptions) (m : Module) : List Candidate :=
  (m.functions.filter (fun d => decide (opts.minFunctionLines < d.lineCount))).map
      (mkCand .function)
    ++ (m.variableDecls.filter (fun d => decide (opts.minVariableLines < d.lineCount))).map
      (mkCand .variableDecl)
    ++ m.interfaces.map (mkCand .interface)
    ++ m.typeAliases.map (mkCand .typeAlias)

/-- JavaScript `Array.from(new Set(l))`: deduplication keeping the first
occurrence of each element. -/
def dedupFirst (l : List String) : List String :=
  l.foldl (fun acc a => if a ∈ acc then acc else acc ++ [a]) []

/-- `TSXRefactorer.addOrUpdateNamedImport`: if an import declaration for the
specifier exists, merge the name sets (`Array.from(new Set([...existing,
...names]))`), remove the old declaration and append the merged one;
otherwise append a fresh declaration.  The inline merge in
`TSXRefactorer2.extractHelperFunctions` performs the identical steps. -/
def addOrUpdateNamedImport (imports : List ImportBinding) (spec : String)
    (names : List String) : List ImportBinding :=
  match imports.find? (fun b => b.1 == spec) with
  | some b =>
      imports.eraseP (fun b2 => b2.1 == spec) ++ [(spec, dedupFirst (b.2 ++ names))]
  | none => imports ++ [(spec, names)]

/-- Iterated extraction steps adding name sets for one specifier, for
the import-merge property. -/
def foldAdds (spec : String) (adds : List (List String))
    (imports : List ImportBinding) : List ImportBinding :=
  adds.foldl (fun imps names => addOrUpdateNamedImport imps spec names) imports

/-- Union of the added name sets, as a finite set. -/
def addsUnion (adds : List (List String)) : Finset String :=
  adds.foldr (fun names s => names.toFinset ∪ s) ∅

/-! ### Pass 1: the extraction pipeline of `refactor-tsx.ts` -/

/-- A single-quote character, used when rendering literal types and
type-only import statements. -/
def sq : String := String.singleton (Char.ofNat 39)

/-- `String.prototype.startsWith`, computed on the underlying character
list. -/
def strStarts (p s : String) : Bool := p.data.isPrefixOf s.data

/-- `extractTypes`: prefix `export ` to a declaration text unless it already
starts with it. -/
def exportText (t : String) : String :=
  if strStarts "export " t then t else "export " ++ t

/-- `extractUtilities`: `text.replace(/^(const|let|var)/, 'export const')` —
the first-match anchored replacement of the leading keyword. -/
def exportUtilText (t : String) : String :=
  if strStarts "const" t then "export const" ++ t.drop 5
  else if strStarts "let" t then "export const" ++ t.drop 3
  else if strStarts "var" t then "export const" ++ t.drop 3
  else t

/-- Header lines of the generated types file. -/
def typesHeader : List String :=
  ["/**", " * Extracted types and interfaces",
   " * Auto-generated by ts-morph refactoring script", " */", ""]

/-- Header lines of the generated utils file. -/
def utilsHeader : List String :=
  ["/**", " * Extracted utility functions",
   " * Auto-generated by ts-morph refactoring script", " */", ""]

/-- A candidate is type-category (`interface` or `type`). -/
def isTypeCand (c : Candidate) : Bool :=
  decide (c.kind = CandKind.interface) || decide (c.kind = CandKind.typeAlias)

/-- A candidate is utility-category: a `variable` candidate whose name
matches `utilNamePattern`. -/
def isUtilCand (opts : RefactorOptions) (c : Candidate) : Bool :=
  decide (c.kind = CandKind.variableDecl) && opts.utilNamePattern c.name

/-- Content of the generated types file: header plus each candidate's text
normalised to be exported. -/
def typesFileContent (typeCands : List Candidate) : String :=
  "\n".intercalate (typesHeader ++ typeCands.map (fun c => exportText c.decl.text))

/-- The rendered `import type { ... } from '...';` line. -/
def typeImportText (names : List String) (spec : String) : String :=
  "import type \x7b " ++ ", ".intercalate names ++ " \x7d from " ++ sq ++ spec ++ sq ++ ";"

/-- Content of the generated utils file: header, optional type-only import,
then the exported statements. -/
def utilsFileContent (typeNames : List String) (typesFromUtilsSpec : String)
    (utilStatements : List String) : String :=
  "\n".intercalate
    (utilsHeader ++
      (if typeNames.isEmpty then [] else [typeImportText typeNames typesFromUtilsSpec, ""]) ++
      utilStatements)

/-- The in-project representation of the types file: the exported
interface / type-alias names it holds and its full text. -/
structure TypesFileRep where
  exportedNames : List String
  content : String
deriving DecidableEq, Repr

/-- State of one `TSXRefactorer` run: the in-memory origin `SourceFile`, the
in-project types / utils files, and the persisted (on-disk) copies.  The
disk fields change only on a successful `saveSync`. -/
structure PipeState where
  origin : Module
  typesMem : Option TypesFileRep
  utilsMem : Option String
  diskOrigin : Module
  diskTypes : Option String
  diskUtils : Option String
deriving DecidableEq, Repr

/-- Whether each `saveSync` call succeeds; a `false` flag models the
persistence failure of §7 of the spec. -/
structure SaveFlags where
  typesOk : Bool
  utilsOk : Bool
  originOk : Bool
deriving DecidableEq, Repr

/-- All saves succeed. -/
def allOk : SaveFlags := ⟨true, true, true⟩

/-- `project.getSourceFile(typesFile)` filtered to exported declarations, as
`getExportedTypeNames` does; `[]` when the types file is not in the project. -/
def getExportedTypeNames (st : PipeState) : List String :=
  match st.typesMem with
  | some rep => rep.exportedNames
  | none => []

/-- Remove the type-category candidates' declarations from the origin, as the
`candidate.node.remove()` loop of `extractTypes` does. -/
def removeTypeCands (m : Module) (tc : List Candidate) : Module :=
  { m with
    interfaces := m.interfaces.filter (fun d => decide (∀ c ∈ tc, c.decl ≠ d)),
    typeAliases := m.typeAliases.filter (fun d => decide (∀ c ∈ tc, c.decl ≠ d)) }

/-- `TSXRefactorer.extractTypes`.  An `.error` result is the exception of a
failing `typesFile.saveSync()`, carrying the in-memory state at that point. -/
def extractTypes (opts : RefactorOptions) (fl : SaveFlags)
    (cands : List Candidate) (st : PipeState) : Except PipeState PipeState :=
  let typeCands := cands.filter isTypeCand
  if typeCands.isEmpty then .ok st
  else
    let content := typesFileContent typeCands
    let typeNames := typeCands.map (·.name)
    let origin1 := removeTypeCands st.origin typeCands
    let origin2 :=
      if typeNames.isEmpty then origin1
      else { origin1 with
              imports := addOrUpdateNamedImport origin1.imports opts.typesSpecifier typeNames }
    let st1 := { st with origin := origin2, typesMem := some ⟨typeNames, content⟩ }
    if fl.typesOk then .ok { st1 with diskTypes := some content } else .error st1

/-- `TSXRefactorer.extractUtilities`.  An `.error` result is the exception of
a failing `utilsFile.saveSync()`. -/
def extractUtilities (opts : RefactorOptions) (fl : SaveFlags)
    (cands : List Candidate) (st : PipeState) : Except PipeState PipeState :=
  let utilCands := cands.filter (isUtilCand opts)
  if utilCands.isEmpty then .ok st
  else
    let extractedNames := utilCands.map (·.name)
    let utilStatements := utilCands.map (fun c => exportUtilText c.decl.text)
    let origin1 :=
      { st.origin with
        variableDecls := st.origin.variableDecls.filter
          (fun d => decide (∀ c ∈ utilCands, c.decl ≠ d)) }
    let typeNames := getExportedTypeNames st
    let content := utilsFileContent typeNames opts.typesFromUtilsSpecifier utilStatements
    let origin2 :=
      if extractedNames.isEmpty then origin1
      else { origin1 with
              imports := addOrUpdateNamedImport origin1.imports opts.utilsSpecifier
                extractedNames }
    let st1 := { st with origin := origin2, utilsMem := some content }
    if fl.utilsOk then .ok { st1 with diskUtils := some content } else .error st1

/-- `TSXRefactorer.save`: `sourceFile.saveSync()` persisting the origin. -/
def saveOrigin (fl : SaveFlags) (st : PipeState) : Except PipeState PipeState :=
  if fl.originOk then .ok { st with diskOrigin := st.origin } else .error st

/-- The `TopLevelExtraction` pass as sequenced by `main` of
`refactor-tsx.ts`: analyze, extract types, extract utilities, save origin. -/
def runPass (opts : RefactorOptions) (fl : SaveFlags) (st : PipeState) :
    Except PipeState PipeState := do
  let cands := analyzeFile opts st.origin
  let st1 ← extractTypes opts fl cands st
  let st2 ← extractUtilities opts fl cands st1
  saveOrigin fl st2

/-- `extractTypes` when `typesFile.saveSync()` succeeds. -/
def extractTypesF (opts : RefactorOptions) (cands : List Candidate)
    (st : PipeState) : PipeState :=
  let typeCands := cands.filter isTypeCand
  if typeCands.isEmpty then st
  else
    let content := typesFileContent typeCands
    let typeNames := typeCands.map (·.name)
    let origin1 := removeTypeCands st.origin typeCands
    let origin2 :=
      if typeNames.isEmpty then origin1
      else { origin1 with
              imports := addOrUpdateNamedImport origin1.imports opts.typesSpecifier typeNames }
    { st with origin := origin2, typesMem := some ⟨typeNames, content⟩,
              diskTypes := some content }

/-- `extractUtilities` when `utilsFile.saveSync()` succeeds. -/
def extractUtilitiesF (opts : RefactorOptions) (cands : List Candidate)
    (st : PipeState) : PipeState :=
  let utilCands := cands.filter (isUtilCand opts)
  if utilCands.isEmpty then st
  else
    let extractedNames := utilCands.map (·.name)
    let utilStatements := utilCands.map (fun c => exportUtilText c.decl.text)
    let origin1 :=
      { st.origin with
        variableDecls := st.origin.variableDecls.filter
          (fun d => decide (∀ c ∈ utilCands, c.decl ≠ d)) }
    let typeNames := getExportedTypeNames st
    let content := utilsFileContent typeNames opts.typesFromUtilsSpecifier utilStatements
    let origin2 :=
      if extractedNames.isEmpty then origin1
      else { origin1 with
              imports := addOrUpdateNamedImport origin1.imports opts.utilsSpecifier
                extractedNames }
    { st with origin := origin2, utilsMem := some content, diskUtils := some content }

/-- The whole successful pass. -/
def runPassF (opts : RefactorOptions) (st : PipeState) : PipeState :=
  let cands := analyzeFile opts st.origin
  let st2 := extractUtilitiesF opts cands (extractTypesF opts cands st)
  { st2 with diskOrigin := st2.origin }

/-- All declarations of a module. -/
def allDecls (m : Module) : List Decl :=
  m.functions ++ m.variableDecls ++ m.interfaces ++ m.typeAliases

/-! ### Pass 2: `refactor-tsx-pass2.ts` -/

/-- A statement of the component's body block: a (single-declaration)
variable statement, with its initializer's arrow-function-ness, or any other
statement. -/
inductive NestedStmt where
  | varStmt (name : String) (text : String) (isArrow : Bool) (lineCount : Nat)
  | other (text : String)
deriving DecidableEq, Repr

/-- `Pass2Options` of `refactor-tsx-pass2.ts`. -/
structure Pass2Options where
  helperNamePattern : String → Bool
  /-- `toModuleSpecifier(targetFile, utilsFile)`. -/
  utilsSpecifier : String
  /-- `toModuleSpecifier(utilsFilePath, typesFile)`; `none` models a falsy
  `typesFile` option. -/
  typesFromUtilsSpecifier : Option String

/-- State of one `TSXRefactorer2` run over a located component body. -/
structure Pass2State where
  /-- Statements of the component's body block. -/
  body : List NestedStmt
  /-- Import declarations of the origin source file. -/
  imports : List ImportBinding
  /-- `project.getSourceFile(utilsFilePath)`: the utils file's full text when
  that file is registered in the project, else `none`. -/
  utilsProject : Option String
  /-- Exported type names of the types file when it is registered in the
  project, else `none`. -/
  typesProject : Option (List String)
  /-- Persisted utils file content. -/
  diskUtils : Option String
  /-- Persisted origin body. -/
  diskOriginBody : List NestedStmt
  /-- Persisted origin imports. -/
  diskOriginImports : List ImportBinding
deriving DecidableEq, Repr

/-- JavaScript `\s` on the ASCII range. -/
def whitespaceChar (c : Char) : Bool :=
  c == ' ' || c == '\t' || c == '\n' || c == '\r'

/-- `text.replace(/^(\s*)(const|let|var)/, '$1export const')` of
`extractHelperFunctions`. -/
def pass2ExportText (t : String) : String :=
  let ws : List Char := t.data.takeWhile whitespaceChar
  let rest : String := ⟨t.data.dropWhile whitespaceChar⟩
  if strStarts "const" rest then ⟨ws⟩ ++ "export const" ++ rest.drop 5
  else if strStarts "let" rest then ⟨ws⟩ ++ "export const" ++ rest.drop 3
  else if strStarts "var" rest then ⟨ws⟩ ++ "export const" ++ rest.drop 3
  else t

/-- `TSXRefactorer2.getExportedTypeNames`: `[]` when no types file is
configured or the types file is not in the project. -/
def pass2GetExportedTypeNames (opts : Pass2Options) (st : Pass2State) : List String :=
  match opts.typesFromUtilsSpecifier with
  | none => []
  | some _ =>
      match st.typesProject with
      | some ns => ns
      | none => []

/-- `TSXRefactorer2.getTypeImportStatement`. -/
def getTypeImportStatement (opts : Pass2Options) (st : Pass2State) : Option String :=
  match opts.typesFromUtilsSpecifier with
  | none => none
  | some spec =>
      let ns := pass2GetExportedTypeNames opts st
      if ns.isEmpty then none else some (typeImportText ns spec)

/-- The content the `catch` branch of `extractHelperFunctions` would build:
header lines and the type-only import, with `filter(Boolean)` dropping the
empty strings and an absent import line. -/
def pass2FallbackContent (opts : Pass2Options) (st : Pass2State) : String :=
  "\n".intercalate
    ((utilsHeader ++ [(getTypeImportStatement opts st).getD "", ""]).filter
      (fun s => !s.isEmpty))

/-- The `try` block reading the existing utils content:
`project.getSourceFile(utilsFilePath)` is total and returns `undefined`
(here `none`) when the file is not registered — it does not throw, so the
`catch` branch building `pass2FallbackContent` is unreachable and
`utilsContent` keeps its initial `''`. -/
def pass2ReadUtilsBase (st : Pass2State) : String :=
  match st.utilsProject with
  | some t => t
  | none => ""

/-- The helper-candidate test of `extractHelperFunctions`: a variable
statement whose initializer is an arrow function and whose name matches
`helperNamePattern`; yields `(name, statement text)`. -/
def helperOf (p : String → Bool) : NestedStmt → Option (String × String)
  | .varStmt name text isArrow _ =>
      if isArrow && p name then some (name, text) else none
  | .other _ => none

/-- `TSXRefactorer2.extractHelperFunctions` on a located component body:
collect helpers, write the utils file (existing content plus `'\n'` plus the
exported statements), remove the matched variable statements from the body,
and merge the import; both saves succeed here (the pass has no fatal-save
claims attached). -/
def extractHelperFunctions (opts : Pass2Options) (st : Pass2State) : Pass2State :=
  let helpers := st.body.filterMap (helperOf opts.helperNamePattern)
  if helpers.isEmpty then st
  else
    let utilsContent := pass2ReadUtilsBase st ++ "\n" ++
      "\n\n".intercalate (helpers.map (fun h => pass2ExportText h.2))
    let functionNames := helpers.map (·.1)
    let body1 := st.body.filter (fun s =>
      match s with
      | .varStmt n _ _ _ => decide (n ∉ functionNames)
      | .other _ => true)
    let imports1 := addOrUpdateNamedImport st.imports opts.utilsSpecifier functionNames
    { st with body := body1, imports := imports1,
              utilsProject := some utilsContent, diskUtils := some utilsContent,
              diskOriginBody := body1, diskOriginImports := imports1 }

/-- The names a pass-2 run extracts. -/
def pass2ExtractedNames (opts : Pass2Options) (st : Pass2State) : List String :=
  (st.body.filterMap (helperOf opts.helperNamePattern)).map (·.1)

/-- Names of the variable statements of a body. -/
def bodyNames (body : List NestedStmt) : List String :=
  body.filterMap (fun s =>
    match s with
    | .varStmt n _ _ _ => some n
    | .other _ => none)

/-- Replace every statement's line count (used to state that pass-2
extraction is independent of line counts). -/
def mapLineCounts (f : Nat → Nat) : NestedStmt → NestedStmt
  | .varStmt n t a lc => .varStmt n t a (f lc)
  | .other t => .other t

/-! ### The type reconciliation pass: `analyze-types.ts` -/

/-- A variable declaration examined by the arrow-function loop of
`TypeAnalyzer.addReturnTypes`, together with the type-checker's rendered
inferred return type and whether the `setReturnType` write succeeds. -/
structure AVarDecl where
  name : String
  /-- The initializer exists and is an arrow function. -/
  isArrowInit : Bool
  hasReturnTypeNode : Bool
  /-- `returnType.getText(initializer)`. -/
  inferredReturnText : String
  /-- Whether `setReturnType` raises (the loop catches and skips). -/
  setOk : Bool
deriving DecidableEq, Repr

/-- The write condition of the arrow loop of `addReturnTypes`:
`typeText !== 'void' && typeText.length < 100` on an arrow initializer
without a return type node. -/
def returnTypeCond (d : AVarDecl) : Bool :=
  d.isArrowInit && !d.hasReturnTypeNode &&
    !(d.inferredReturnText == "void") && decide (d.inferredReturnText.length < 100)

/-- The arrow-function loop of `addReturnTypes`: the `(name, written type)`
pairs and the `fixCount`. -/
def addReturnTypesVars (decls : List AVarDecl) : List (String × String) × Nat :=
  decls.foldl
    (fun acc d =>
      if returnTypeCond d then
        if d.setOk then (acc.1 ++ [(d.name, d.inferredReturnText)], acc.2 + 1) else acc
      else acc)
    ([], 0)

/-- A function declaration examined by the second loop of `addReturnTypes`. -/
structure AFuncDecl where
  name : String
  hasReturnTypeNode : Bool
  inferredReturnText : String
  setOk : Bool
deriving DecidableEq, Repr

/-- The write condition of the function loop of `addReturnTypes`. -/
def funcReturnTypeCond (f : AFuncDecl) : Bool :=
  !f.hasReturnTypeNode && !(f.inferredReturnText == "void") &&
    decide (f.inferredReturnText.length < 100)

/-- The function loop of `addReturnTypes`. -/
def addReturnTypesFuncs (funcs : List AFuncDecl) : List (String × String) × Nat :=
  funcs.foldl
    (fun acc f =>
      if funcReturnTypeCond f then
        if f.setOk then (acc.1 ++ [(f.name, f.inferredReturnText)], acc.2 + 1) else acc
      else acc)
    ([], 0)

/-- `TypeAnalyzer.addReturnTypes`: both loops, writes and total count. -/
def addReturnTypes (decls : List AVarDecl) (funcs : List AFuncDecl) :
    List (String × String) × Nat :=
  ((addReturnTypesVars decls).1 ++ (addReturnTypesFuncs funcs).1,
   (addReturnTypesVars decls).2 + (addReturnTypesFuncs funcs).2)

/-- One formal parameter examined by `TypeAnalyzer.addParameterTypes`; the
parameters of all functions and arrow initializers, flattened in visit
order. -/
structure AParam where
  name : String
  hasTypeNode : Bool
  inferredText : String
  setOk : Bool
deriving DecidableEq, Repr

/-- The write condition of `addParameterTypes`:
`typeText !== 'any' && typeText.length < 100` on a parameter without a type
node. -/
def paramCond (p : AParam) : Bool :=
  !p.hasTypeNode && !(p.inferredText == "any") && decide (p.inferredText.length < 100)

/-- `TypeAnalyzer.addParameterTypes`. -/
def addParameterTypes (params : List AParam) : List (String × String) × Nat :=
  params.foldl
    (fun acc p =>
      if paramCond p then
        if p.setOk then (acc.1 ++ [(p.name, p.inferredText)], acc.2 + 1) else acc
      else acc)
    ([], 0)

/-- A variable declaration examined by `TypeAnalyzer.fixAnyTypes`. -/
structure AnyVarDecl where
  name : String
  typeNodeText : Option String
  /-- `initializer.getType().getText(initializer)` when an initializer
  exists. -/
  initInferredText : Option String
  setOk : Bool
deriving DecidableEq, Repr

/-- `TypeAnalyzer.fixAnyTypes`: replace an explicit `any` with the
initializer's inferred type when that is not `any` and below the ceiling. -/
def fixAnyTypes (decls : List AnyVarDecl) : List (String × String) × Nat :=
  decls.foldl
    (fun acc d =>
      match d.typeNodeText, d.initInferredText with
      | some tn, some t =>
          if tn == "any" && !(t == "any") && decide (t.length < 100) then
            if d.setOk then (acc.1 ++ [(d.name, t)], acc.2 + 1) else acc
          else acc
      | _, _ => acc)
    ([], 0)

/-- An interface / type-alias declaration examined by
`TypeAnalyzer.ensureTypeExports`. -/
structure ATypeDecl where
  name : String
  isExported : Bool
  /-- Whether `setIsExported(true)` raises.  The loop has NO try/catch. -/
  setOk : Bool
deriving DecidableEq, Repr

/-- The `forEach` of `ensureTypeExports`: a failing `setIsExported` raises
out of the whole function, leaving later declarations unprocessed; the error
value carries the partially-updated list and the count reached. -/
def ensureTypeExportsGo (done : List ATypeDecl) (todo : List ATypeDecl) (n : Nat) :
    Except (List ATypeDecl × Nat) (List ATypeDecl × Nat) :=
  match todo with
  | [] => .ok (done, n)
  | d :: rest =>
      if d.isExported then ensureTypeExportsGo (done ++ [d]) rest n
      else if d.setOk then
        ensureTypeExportsGo (done ++ [{ d with isExported := true }]) rest (n + 1)
      else .error (done ++ [d] ++ rest, n)

/-- `TypeAnalyzer.ensureTypeExports`: early-returns 0 fixes unless the file
path contains `.types.ts`; otherwise runs the unguarded export loop. -/
def ensureTypeExports (isTypesFile : Bool) (decls : List ATypeDecl) :
    Except (List ATypeDecl × Nat) (List ATypeDecl × Nat) :=
  if isTypesFile then ensureTypeExportsGo [] decls 0 else .ok (decls, 0)

/-- The declaration kind of a variable statement
(`getDeclarationKind()`). -/
inductive VarDeclKind where
  | constKind
  | letKind
  | varKind
deriving DecidableEq, Repr

/-- A variable declaration examined by
`TypeAnalyzer.improveTypeSpecificity`. -/
structure SpecVarDecl where
  name : String
  /-- `getTypeNode()?.getText()`. -/
  typeNodeText : Option String
  /-- `some v` when an initializer exists and its type is the string literal
  `v` (`initType.isStringLiteral()`, `initType.getLiteralValue()`). -/
  initStringLiteral : Option String
  /-- `getVariableStatement()?.getDeclarationKind()`. -/
  varStatementKind : Option VarDeclKind
  setOk : Bool
deriving DecidableEq, Repr

/-- The written literal type text: `'${literalValue}'`. -/
def literalTypeText (v : String) : String := sq ++ v ++ sq

/-- `TypeAnalyzer.improveTypeSpecificity`: narrow an explicit `string` on a
`const` declaration with a string-literal initializer to the literal type. -/
def improveTypeSpecificity (decls : List SpecVarDecl) :
    List (SpecVarDecl × String) × Nat :=
  decls.foldl
    (fun acc d =>
      match d.initStringLiteral with
      | some v =>
          if d.typeNodeText == some "string" &&
              d.varStatementKind == some VarDeclKind.constKind then
            if d.setOk then (acc.1 ++ [(d, literalTypeText v)], acc.2 + 1) else acc
          else acc
      | none => acc)
    ([], 0)

/-- The denotation of a rendered TypeScript type text, as far as the
narrowing claim needs: the general string type, a string-literal type, or
anything else. -/
inductive TSType where
  | str
  | lit (v : String)
  | other (t : String)
deriving DecidableEq, Repr

/-- Value space (set of runtime string values) of a type. An unknown type is
conservatively given the universal space. -/
def valueSpace : TSType → Set String
  | .str => Set.univ
  | .lit v => {v}
  | .other _ => Set.univ

/-- Parse a rendered type text back into the denotation: `string`, a
single-quoted literal, or opaque. -/
def parseTypeText (t : String) : TSType :=
  if t = "string" then .str
  else if decide (2 ≤ t.data.length) && (t.data.head? == some (Char.ofNat 39)) &&
      (t.data.getLast? == some (Char.ofNat 39)) then
    .lit ⟨(t.data.drop 1).dropLast⟩
  else .other t

/-- The write decision of the arrow loop of `addReturnTypes`. -/
def returnTypePick (d : AVarDecl) : Option (String × String) :=
  if returnTypeCond d && d.setOk then some (d.name, d.inferredReturnText) else none

/-- The write decision of the function loop of `addReturnTypes`. -/
def funcReturnTypePick (f : AFuncDecl) : Option (String × String) :=
  if funcReturnTypeCond f && f.setOk then some (f.name, f.inferredReturnText) else none

/-- The write decision of `addParameterTypes`. -/
def paramPick (p : AParam) : Option (String × String) :=
  if paramCond p && p.setOk then some (p.name, p.inferredText) else none

/-- The filter of `fixAnyTypes` on the declared and inferred texts. -/
def fixAnyCond (tn t : String) : Bool :=
  tn == "any" && !(t == "any") && decide (t.length < 100)

/-- The write decision of `fixAnyTypes`. -/
def fixAnyPick (d : AnyVarDecl) : Option (String × String) :=
  match d.typeNodeText, d.initInferredText with
  | some tn, some t =>
      if fixAnyCond tn t && d.setOk then some (d.name, t) else none
  | _, _ => none

/-- The write decision of `improveTypeSpecificity`. -/
def specificityPick (d : SpecVarDecl) : Option (SpecVarDecl × String) :=
  match d.initStringLiteral with
  | some v =>
      if (d.typeNodeText == some "string" &&
          d.varStatementKind == some VarDeclKind.constKind) && d.setOk then
        some (d, literalTypeText v)
      else none
  | none => none

/-! ### Concrete sample inputs for witnesses and counterexamples -/

/-- Default-like options with the documented name pattern
`^(validate|format|get|handle)` and thresholds 20/10. -/
def sampleOptions : RefactorOptions :=
  { minFunctionLines := 20
    minVariableLines := 10
    utilNamePattern := fun n =>
      strStarts "validate" n || strStarts "format" n ||
        strStarts "get" n || strStarts "handle" n
    typesSpecifier := "./Dashboard.types"
    utilsSpecifier := "./Dashboard.utils"
    typesFromUtilsSpecifier := "./Dashboard.types" }

/-- A small origin module: one interface, one big utility variable, one big
non-utility variable (the component) and one small function. -/
def sampleModule : Module :=
  { functions := [⟨"renderRow", "function renderRow() ...", 8⟩]
    variableDecls :=
      [⟨"formatDate", "const formatDate = (d: Date) => d.toISOString()", 12⟩,
       ⟨"Dashboard", "const Dashboard = () => ...", 200⟩]
    interfaces := [⟨"User", "interface User ...", 4⟩]
    typeAliases := [⟨"Role", "type Role = ...", 1⟩]
    imports := [] }

/-- Fresh pipeline state for `sampleModule`; the types path already holds
content `"zzz"` on disk from an earlier, unrelated write. -/
def sampleState : PipeState :=
  { origin := sampleModule
    typesMem := none
    utilsMem := none
    diskOrigin := sampleModule
    diskTypes := some "zzz"
    diskUtils := none }

/-- Pass-2 options with the claim's pattern `^(validate|get)`. -/
def samplePass2Options : Pass2Options :=
  { helperNamePattern := fun n => strStarts "validate" n || strStarts "get" n
    utilsSpecifier := "./Dashboard.utils"
    typesFromUtilsSpecifier := some "./Dashboard.types" }

/-- The composite body of the nested-extraction scenario: three nested
arrow-function bindings. -/
def sampleBody : List NestedStmt :=
  [.varStmt "validateForm" "const validateForm = () => true" true 3,
   .varStmt "getRoleBadgeColor" "const getRoleBadgeColor = () => 1" true 4,
   .varStmt "unrelatedHelper" "const unrelatedHelper = () => 2" true 5]

/-- Pass-2 state in which the utils file is not registered in the project. -/
def samplePass2State : Pass2State :=
  { body := sampleBody
    imports := []
    utilsProject := none
    typesProject := some ["User", "Role"]
    diskUtils := none
    diskOriginBody := sampleBody
    diskOriginImports := [] }

/-- An inferred return-type text of exactly 99 characters. -/
def text99 : String := ⟨List.replicate 99 'x'⟩

/-- An inferred return-type text of exactly 100 characters. -/
def text100 : String := ⟨List.replicate 100 'x'⟩

/-- Two arrow-initializer declarations lacking return types whose inferred
types render at 99 and at exactly 100 characters. -/
def boundaryDecls : List AVarDecl :=
  [⟨"under", true, false, text99, true⟩, ⟨"over", true, false, text100, true⟩]

/-- Type declarations for the `ensureTypeExports` abort counterexample: the
second `setIsExported` raises. -/
def exportSample : List ATypeDecl :=
  [⟨"A", false, true⟩, ⟨"B", false, false⟩, ⟨"C", false, true⟩]

/-- The state carried by the exception of a types-file save failure on the
sample module. -/
def sampleFailState : PipeState :=
  match runPass sampleOptions ⟨false, true, true⟩ sampleState with
  | .error s => s
  | .ok s => s

end TsMorph

namespace TsMorph

/-! ## Helper lemmas -/

theorem dedupFirst_go_nodup (l : List String) :
    ∀ acc : List String, acc.Nodup →
      (l.foldl (fun acc a => if a ∈ acc then acc else acc ++ [a]) acc).Nodup := by
  induction l with
  | nil => intro acc h; simpa using h
  | cons a l ih =>
      intro acc h
      simp only [List.foldl_cons]
      by_cases hmem : a ∈ acc
      · simp only [if_pos hmem]; exact ih acc h
      · simp only [if_neg hmem]
        exact ih _ (by simp [List.nodup_append, h, hmem])

theorem dedupFirst_go_mem (l : List String) :
    ∀ (acc : List String) (x : String),
      x ∈ l.foldl (fun acc a => if a ∈ acc then acc else acc ++ [a]) acc ↔
        x ∈ acc ∨ x ∈ l := by
  induction l with
  | nil => intro acc x; simp
  | cons a l ih =>
      intro acc x
      simp only [List.foldl_cons]
      by_cases hmem : a ∈ acc
      · rw [if_pos hmem, ih]
        constructor
        · rintro (h | h)
          · exact Or.inl h
          · exact Or.inr (List.mem_cons_of_mem _ h)
        · rintro (h | h)
          · exact Or.inl h
          · rcases List.mem_cons.mp h with h | h
            · exact Or.inl (h ▸ hmem)
            · exact Or.inr h
      · rw [if_neg hmem, ih]
        simp only [List.mem_append, List.mem_singleton, List.mem_cons]
        tauto

theorem dedupFirst_nodup (l : List String) : (dedupFirst l).Nodup :=
  dedupFirst_go_nodup l [] List.nodup_nil

theorem mem_dedupFirst {l : List String} {x : String} :
    x ∈ dedupFirst l ↔ x ∈ l := by
  unfold dedupFirst
  rw [dedupFirst_go_mem]
  simp

theorem dedupFirst_toFinset (l : List String) :
    (dedupFirst l).toFinset = l.toFinset := by
  ext x
  simp [List.mem_toFinset, mem_dedupFirst]

/-- Step equation: a non-matching head commutes with `addOrUpdateNamedImport`. -/
theorem addOrUpdateNamedImport_cons_ne (hd : ImportBinding) (tl : List ImportBinding)
    (spec : String) (names : List String) (h : hd.1 ≠ spec) :
    addOrUpdateNamedImport (hd :: tl) spec names =
      hd :: addOrUpdateNamedImport tl spec names := by
  have hb : (hd.1 == spec) = false := by
    simp [h]
  unfold addOrUpdateNamedImport
  rw [List.find?_cons_of_neg _ (by simp [hb])]
  cases hfind : tl.find? (fun b => b.1 == spec) with
  | none => simp [hfind, List.eraseP_cons, hb]
  | some b => simp [hfind, List.eraseP_cons, hb]

/-- Step equation: a matching head is merged and moved to the end. -/
theorem addOrUpdateNamedImport_cons_eq (hd : ImportBinding) (tl : List ImportBinding)
    (names : List String) :
    addOrUpdateNamedImport (hd :: tl) hd.1 names =
      tl ++ [(hd.1, dedupFirst (hd.2 ++ names))] := by
  unfold addOrUpdateNamedImport
  rw [List.find?_cons_of_pos _ (by simp)]
  simp [List.eraseP_cons]

/-- On a state with no binding for the specifier, the binding is appended. -/
theorem addOrUpdateNamedImport_not_found (imports : List ImportBinding)
    (spec : String) (names : List String)
    (h : ∀ b ∈ imports, b.1 ≠ spec) :
    addOrUpdateNamedImport imports spec names = imports ++ [(spec, names)] := by
  unfold addOrUpdateNamedImport
  rw [List.find?_eq_none.mpr (by intro b hb; simp [h b hb])]

theorem extractTypes_allOk (opts : RefactorOptions) (cands : List Candidate)
    (st : PipeState) :
    extractTypes opts allOk cands st = .ok (extractTypesF opts cands st) := by
  unfold extractTypes extractTypesF allOk
  by_cases h : (cands.filter isTypeCand).isEmpty <;> simp [h]

theorem extractUtilities_allOk (opts : RefactorOptions) (cands : List Candidate)
    (st : PipeState) :
    extractUtilities opts allOk cands st = .ok (extractUtilitiesF opts cands st) := by
  unfold extractUtilities extractUtilitiesF allOk
  by_cases h : (cands.filter (isUtilCand opts)).isEmpty <;> simp [h]

theorem runPass_allOk (opts : RefactorOptions) (st : PipeState) :
    runPass opts allOk st = .ok (runPassF opts st) := by
  simp only [runPass]
  rw [extractTypes_allOk]
  simp only [Bind.bind, Except.bind]
  rw [extractUtilities_allOk]
  simp only [saveOrigin, allOk, if_true]
  rfl

theorem isTypeCand_mkCand (k : CandKind) (d : Decl) :
    isTypeCand (mkCand k d) =
      (decide (k = CandKind.interface) || decide (k = CandKind.typeAlias)) := rfl

theorem isUtilCand_mkCand (opts : RefactorOptions) (k : CandKind) (d : Decl) :
    isUtilCand opts (mkCand k d) =
      (decide (k = CandKind.variableDecl) && opts.utilNamePattern d.name) := rfl

/-- The type-category candidates of `analyzeFile` are exactly the interfaces
followed by the type aliases. -/
theorem filter_isTypeCand_analyzeFile (opts : RefactorOptions) (m : Module) :
    (analyzeFile opts m).filter isTypeCand =
      m.interfaces.map (mkCand .interface) ++ m.typeAliases.map (mkCand .typeAlias) := by
  unfold analyzeFile
  simp only [List.filter_append, List.filter_map, Function.comp_def, isTypeCand_mkCand]
  simp

/-- The utility-category candidates of `analyzeFile` are exactly the variable
declarations above the threshold whose name matches the pattern. -/
theorem filter_isUtilCand_analyzeFile (opts : RefactorOptions) (m : Module) :
    (analyzeFile opts m).filter (isUtilCand opts) =
      (m.variableDecls.filter (fun d =>
        decide (opts.minVariableLines < d.lineCount) && opts.utilNamePattern d.name)).map
        (mkCand .variableDecl) := by
  unfold analyzeFile
  simp only [List.filter_append, List.filter_map, Function.comp_def, isUtilCand_mkCand]
  simp [List.filter_filter, mkCand]
  exact congrArg _ (List.filter_congr (fun d _ => Bool.and_comm _ _))

/-- Any name resolvable before `addOrUpdateNamedImport` stays resolvable. -/
theorem mem_addOrUpdateNamedImport_of_mem (imports : List ImportBinding)
    (spec : String) (names : List String) (n : String)
    (h : ∃ b ∈ imports, n ∈ b.2) :
    ∃ b ∈ addOrUpdateNamedImport imports spec names, n ∈ b.2 := by
  induction imports with
  | nil => simp at h
  | cons hd tl ih =>
      by_cases hspec : hd.1 = spec
      · subst hspec
        rw [addOrUpdateNamedImport_cons_eq]
        rcases h with ⟨b, hb, hn⟩
        rcases List.mem_cons.mp hb with rfl | hb
        · exact ⟨(b.1, dedupFirst (b.2 ++ names)), by simp,
            mem_dedupFirst.mpr (List.mem_append_left _ hn)⟩
        · exact ⟨b, List.mem_append_left _ hb, hn⟩
      · rw [addOrUpdateNamedImport_cons_ne _ _ _ _ hspec]
        rcases h with ⟨b, hb, hn⟩
        rcases List.mem_cons.mp hb with rfl | hb
        · exact ⟨b, List.mem_cons_self _ _, hn⟩
        · rcases ih ⟨b, hb, hn⟩ with ⟨b', hb', hn'⟩
          exact ⟨b', List.mem_cons_of_mem _ hb', hn'⟩

/-- Every added name is resolvable after `addOrUpdateNamedImport`. -/
theorem mem_addOrUpdateNamedImport_self (imports : List ImportBinding)
    (spec : String) (names : List String) (n : String) (hn : n ∈ names) :
    ∃ b ∈ addOrUpdateNamedImport imports spec names, n ∈ b.2 := by
  unfold addOrUpdateNamedImport
  cases hfind : imports.find? (fun b => b.1 == spec) with
  | none => exact ⟨(spec, names), by simp, hn⟩
  | some b =>
      exact ⟨(spec, dedupFirst (b.2 ++ names)), by simp,
        mem_dedupFirst.mpr (List.mem_append_right _ hn)⟩

/-! ### Canonical forms of the successful extraction steps -/

theorem extractTypesF_of_empty (opts : RefactorOptions) (cands : List Candidate)
    (st : PipeState) (h : cands.filter isTypeCand = []) :
    extractTypesF opts cands st = st := by
  unfold extractTypesF
  simp [h]

theorem extractTypesF_of_ne (opts : RefactorOptions) (cands : List Candidate)
    (st : PipeState) (h : cands.filter isTypeCand ≠ []) :
    extractTypesF opts cands st =
      { st with
        origin :=
          { st.origin with
            interfaces := st.origin.interfaces.filter
              (fun d => decide (∀ c ∈ cands.filter isTypeCand, c.decl ≠ d)),
            typeAliases := st.origin.typeAliases.filter
              (fun d => decide (∀ c ∈ cands.filter isTypeCand, c.decl ≠ d)),
            imports := addOrUpdateNamedImport st.origin.imports opts.typesSpecifier
              ((cands.filter isTypeCand).map (·.name)) },
        typesMem := some ⟨(cands.filter isTypeCand).map (·.name),
          typesFileContent (cands.filter isTypeCand)⟩,
        diskTypes := some (typesFileContent (cands.filter isTypeCand)) } := by
  have h1 : (cands.filter isTypeCand).isEmpty = false := by
    simpa [List.isEmpty_iff] using h
  have h2 : (((cands.filter isTypeCand).map (fun c => c.name))).isEmpty = false := by
    simpa [List.isEmpty_iff, List.map_eq_nil_iff] using h
  unfold extractTypesF removeTypeCands
  simp [h1, h2]

theorem extractUtilitiesF_of_empty (opts : RefactorOptions) (cands : List Candidate)
    (st : PipeState) (h : cands.filter (isUtilCand opts) = []) :
    extractUtilitiesF opts cands st = st := by
  unfold extractUtilitiesF
  simp [h]

theorem extractUtilitiesF_of_ne (opts : RefactorOptions) (cands : List Candidate)
    (st : PipeState) (h : cands.filter (isUtilCand opts) ≠ []) :
    extractUtilitiesF opts cands st =
      { st with
        origin :=
          { st.origin with
            variableDecls := st.origin.variableDecls.filter
              (fun d => decide (∀ c ∈ cands.filter (isUtilCand opts), c.decl ≠ d)),
            imports := addOrUpdateNamedImport st.origin.imports opts.utilsSpecifier
              ((cands.filter (isUtilCand opts)).map (·.name)) },
        utilsMem := some (utilsFileContent (getExportedTypeNames st)
          opts.typesFromUtilsSpecifier
          ((cands.filter (isUtilCand opts)).map (fun c => exportUtilText c.decl.text))),
        diskUtils := some (utilsFileContent (getExportedTypeNames st)
          opts.typesFromUtilsSpecifier
          ((cands.filter (isUtilCand opts)).map (fun c => exportUtilText c.decl.text))) } := by
  have h1 : (cands.filter (isUtilCand opts)).isEmpty = false := by
    simpa [List.isEmpty_iff] using h
  have h2 : (((cands.filter (isUtilCand opts)).map (fun c => c.name))).isEmpty = false := by
    simpa [List.isEmpty_iff, List.map_eq_nil_iff] using h
  unfold extractUtilitiesF
  simp [h1, h2]

/-! ### Structure of the origin module after a successful pass -/

/-- After a successful `TopLevelExtraction`: no interfaces or type aliases
remain, functions are untouched, every remaining variable declaration fails
the utility test, and the origin is persisted as saved. -/
theorem runPassF_origin_spec (opts : RefactorOptions) (st : PipeState) :
    (runPassF opts st).origin.interfaces = [] ∧
    (runPassF opts st).origin.typeAliases = [] ∧
    (runPassF opts st).origin.functions = st.origin.functions ∧
    (∀ d ∈ (runPassF opts st).origin.variableDecls,
      d ∈ st.origin.variableDecls ∧
      (decide (opts.minVariableLines < d.lineCount) && opts.utilNamePattern d.name) = false) ∧
    (runPassF opts st).diskOrigin = (runPassF opts st).origin := by
  have hT := filter_isTypeCand_analyzeFile opts st.origin
  have hU := filter_isUtilCand_analyzeFile opts st.origin
  have interfaces_killed : ((analyzeFile opts st.origin).filter isTypeCand ≠ []) →
      ∀ (l : List Decl), (∀ d ∈ l, d ∈ st.origin.interfaces ∨ d ∈ st.origin.typeAliases) →
      l.filter (fun d =>
        decide (∀ c ∈ (analyzeFile opts st.origin).filter isTypeCand, c.decl ≠ d)) = [] := by
    intro _ l hl
    apply List.filter_eq_nil_iff.mpr
    intro d hd
    simp only [decide_eq_true_eq, not_forall]
    rcases hl d hd with hmem | hmem
    · exact ⟨mkCand .interface d,
        ⟨by rw [hT]; exact List.mem_append_left _ (List.mem_map_of_mem _ hmem),
         by simp [mkCand]⟩⟩
    · exact ⟨mkCand .typeAlias d,
        ⟨by rw [hT]; exact List.mem_append_right _ (List.mem_map_of_mem _ hmem),
         by simp [mkCand]⟩⟩
  have vars_spec : ∀ d ∈ st.origin.variableDecls.filter
      (fun d => decide (∀ c ∈ (analyzeFile opts st.origin).filter (isUtilCand opts),
        c.decl ≠ d)),
      d ∈ st.origin.variableDecls ∧
      (decide (opts.minVariableLines < d.lineCount) && opts.utilNamePattern d.name) = false := by
    intro d hd
    simp only [List.mem_filter] at hd
    refine ⟨hd.1, ?_⟩
    by_contra hbig
    have hbig' : (decide (opts.minVariableLines < d.lineCount) &&
        opts.utilNamePattern d.name) = true := by
      revert hbig
      cases (decide (opts.minVariableLines < d.lineCount) && opts.utilNamePattern d.name) <;>
        simp
    have hmem : mkCand .variableDecl d ∈
        (analyzeFile opts st.origin).filter (isUtilCand opts) := by
      rw [hU]
      exact List.mem_map_of_mem _ (List.mem_filter.mpr ⟨hd.1, hbig'⟩)
    exact (of_decide_eq_true hd.2 _ hmem) rfl
  have vars_empty_spec : ((analyzeFile opts st.origin).filter (isUtilCand opts) = []) →
      ∀ d ∈ st.origin.variableDecls,
      (decide (opts.minVariableLines < d.lineCount) && opts.utilNamePattern d.name) = false := by
    intro hu d hd
    rw [hU] at hu
    have := (List.filter_eq_nil_iff.mp (List.map_eq_nil_iff.mp hu)) d hd
    simpa using this
  simp only [runPassF]
  by_cases ht : (analyzeFile opts st.origin).filter isTypeCand = [] <;>
    by_cases hu : (analyzeFile opts st.origin).filter (isUtilCand opts) = []
  · rw [extractTypesF_of_empty _ _ _ ht, extractUtilitiesF_of_empty _ _ _ hu]
    rw [hT] at ht
    rcases List.append_eq_nil.mp ht with ⟨hi, ha⟩
    exact ⟨by simpa using List.map_eq_nil_iff.mp hi,
      by simpa using List.map_eq_nil_iff.mp ha, rfl,
      fun d hd => ⟨hd, vars_empty_spec hu d hd⟩, trivial⟩
  · rw [extractTypesF_of_empty _ _ _ ht, extractUtilitiesF_of_ne _ _ _ hu]
    rw [hT] at ht
    rcases List.append_eq_nil.mp ht with ⟨hi, ha⟩
    exact ⟨by simpa using List.map_eq_nil_iff.mp hi,
      by simpa using List.map_eq_nil_iff.mp ha, rfl, vars_spec, trivial⟩
  · rw [extractTypesF_of_ne _ _ _ ht, extractUtilitiesF_of_empty _ _ _ hu]
    refine ⟨?_, ?_, rfl, ?_, trivial⟩
    · exact interfaces_killed ht _ (fun d hd => Or.inl hd)
    · exact interfaces_killed ht _ (fun d hd => Or.inr hd)
    · intro d hd
      exact ⟨hd, vars_empty_spec hu d hd⟩
  · rw [extractTypesF_of_ne _ _ _ ht, extractUtilitiesF_of_ne _ _ _ hu]
    refine ⟨?_, ?_, rfl, ?_, trivial⟩
    · exact interfaces_killed ht _ (fun d hd => Or.inl hd)
    · exact interfaces_killed ht _ (fun d hd => Or.inr hd)
    · exact vars_spec


/-- Restoring an already-saved origin is the identity. -/
theorem update_diskOrigin_self (st : PipeState) (h : st.diskOrigin = st.origin) :
    { st with diskOrigin := st.origin } = st := by
  cases st
  simp only at h
  simp [h]

/-- A prefix test against the prefixed string itself succeeds. -/
theorem strStarts_append_self (p s : String) : strStarts p (p ++ s) = true := by
  unfold strStarts
  rw [String.data_append]
  exact List.isPrefixOf_iff_prefix.mpr (List.prefix_append _ _)

/-- `exportText` is idempotent: re-running on an already-exported candidate
does not change its visibility. -/
theorem exportText_idem (t : String) : exportText (exportText t) = exportText t := by
  unfold exportText
  by_cases h : strStarts "export " t
  · simp [h]
  · simp [h, strStarts_append_self]

/-- A successful pass is a fixed point of itself. -/
theorem runPassF_idem (opts : RefactorOptions) (st : PipeState) :
    runPassF opts (runPassF opts st) = runPassF opts st := by
  obtain ⟨hI, hA, _, hV, hD⟩ := runPassF_origin_spec opts st
  have ht2 : (analyzeFile opts (runPassF opts st).origin).filter isTypeCand = [] := by
    rw [filter_isTypeCand_analyzeFile, hI, hA]
    rfl
  have hu2 : (analyzeFile opts (runPassF opts st).origin).filter (isUtilCand opts) = [] := by
    rw [filter_isUtilCand_analyzeFile]
    have hnil : (runPassF opts st).origin.variableDecls.filter
        (fun d => decide (opts.minVariableLines < d.lineCount) &&
          opts.utilNamePattern d.name) = [] :=
      List.filter_eq_nil_iff.mpr (fun d hd => by simp [(hV d hd).2])
    rw [hnil]
    rfl
  conv_lhs => rw [runPassF]
  rw [extractTypesF_of_empty _ _ _ ht2, extractUtilitiesF_of_empty _ _ _ hu2]
  exact update_diskOrigin_self _ hD

/-- A module whose interfaces and aliases are gone and whose variables
shrank produces no candidate that the original module did not produce. -/
theorem analyzeFile_mono (opts : RefactorOptions) (m1 m2 : Module)
    (hf : m1.functions = m2.functions)
    (hv : ∀ d ∈ m1.variableDecls, d ∈ m2.variableDecls)
    (hi : m1.interfaces = []) (ha : m1.typeAliases = []) :
    ∀ c ∈ analyzeFile opts m1, c ∈ analyzeFile opts m2 := by
  intro c hc
  unfold analyzeFile at hc ⊢
  simp only [List.mem_append, List.mem_map, List.mem_filter, hi, ha, List.map_nil,
    List.not_mem_nil, or_false] at hc ⊢
  rcases hc with ⟨d, ⟨hd, hbig⟩, rfl⟩ | ⟨d, ⟨hd, hbig⟩, rfl⟩
  · exact Or.inl (Or.inl (Or.inl ⟨d, ⟨hf ▸ hd, hbig⟩, rfl⟩))
  · exact Or.inl (Or.inl (Or.inr ⟨d, ⟨hv d hd, hbig⟩, rfl⟩))

/-- Unpack non-membership in `allDecls`. -/
theorem not_mem_allDecls {m : Module} {d : Decl} (h : d ∉ allDecls m) :
    d ∉ m.functions ∧ d ∉ m.variableDecls ∧ d ∉ m.interfaces ∧ d ∉ m.typeAliases := by
  refine ⟨fun hm => h ?_, fun hm => h ?_, fun hm => h ?_, fun hm => h ?_⟩ <;>
    · simp only [allDecls, List.mem_append]
      tauto

/-- In a list, failing the filter while being a member refutes the
predicate. -/
theorem filter_pred_false_of_not_mem {α : Type} {l : List α} {p : α → Bool} {a : α}
    (ha : a ∈ l) (hnot : a ∉ l.filter p) : p a = false := by
  by_cases hp : p a
  · exact absurd (List.mem_filter.mpr ⟨ha, hp⟩) hnot
  · simpa using hp

/-- Names are resolvable after the composed import updates of a successful
pass: every declaration the pass removed from the origin has an import
binding naming it. -/
theorem runPassF_no_orphan (opts : RefactorOptions) (st : PipeState) :
    ∀ d, d ∈ allDecls st.origin → d ∉ allDecls (runPassF opts st).origin →
      ∃ b ∈ (runPassF opts st).origin.imports, d.name ∈ b.2 := by
  intro d hd hnd
  have hT := filter_isTypeCand_analyzeFile opts st.origin
  have hU := filter_isUtilCand_analyzeFile opts st.origin
  simp only [runPassF] at hnd ⊢
  by_cases ht : (analyzeFile opts st.origin).filter isTypeCand = [] <;>
    by_cases hu : (analyzeFile opts st.origin).filter (isUtilCand opts) = []
  · rw [extractTypesF_of_empty _ _ _ ht, extractUtilitiesF_of_empty _ _ _ hu] at hnd ⊢
    exact absurd hd hnd
  · rw [extractTypesF_of_empty _ _ _ ht, extractUtilitiesF_of_ne _ _ _ hu] at hnd ⊢
    simp only [allDecls, List.mem_append] at hd
    obtain ⟨hnf, hnv, hni, hna⟩ := not_mem_allDecls hnd
    rcases hd with ((hdf | hdv) | hdi) | hda
    · exact absurd hdf hnf
    · have hpred := filter_pred_false_of_not_mem hdv hnv
      rw [decide_eq_false_iff_not] at hpred
      push_neg at hpred
      obtain ⟨c, hc, hcd⟩ := hpred
      have hname : d.name ∈ ((analyzeFile opts st.origin).filter
          (isUtilCand opts)).map (fun c => c.name) := by
        rw [hU] at hc ⊢
        obtain ⟨d', hd', rfl⟩ := List.mem_map.mp hc
        have hdd : d' = d := hcd
        subst hdd
        have hm := List.mem_map_of_mem (fun c : Candidate => c.name)
          (List.mem_map_of_mem (mkCand .variableDecl) hd')
        simpa [mkCand] using hm
      exact mem_addOrUpdateNamedImport_self _ _ _ _ hname
    · exact absurd hdi hni
    · exact absurd hda hna
  · rw [extractTypesF_of_ne _ _ _ ht, extractUtilitiesF_of_empty _ _ _ hu] at hnd ⊢
    simp only [allDecls, List.mem_append] at hd
    obtain ⟨hnf, hnv, hni, hna⟩ := not_mem_allDecls hnd
    rcases hd with ((hdf | hdv) | hdi) | hda
    · exact absurd hdf hnf
    · exact absurd hdv hnv
    · have hname : d.name ∈ ((analyzeFile opts st.origin).filter isTypeCand).map
          (fun c => c.name) := by
        rw [hT]
        exact List.mem_map_of_mem _
          (List.mem_append_left _ (List.mem_map_of_mem (mkCand .interface) hdi))
      exact mem_addOrUpdateNamedImport_self _ _ _ _ hname
    · have hname : d.name ∈ ((analyzeFile opts st.origin).filter isTypeCand).map
          (fun c => c.name) := by
        rw [hT]
        exact List.mem_map_of_mem _
          (List.mem_append_right _ (List.mem_map_of_mem (mkCand .typeAlias) hda))
      exact mem_addOrUpdateNamedImport_self _ _ _ _ hname
  · rw [extractTypesF_of_ne _ _ _ ht, extractUtilitiesF_of_ne _ _ _ hu] at hnd ⊢
    simp only [allDecls, List.mem_append] at hd
    obtain ⟨hnf, hnv, hni, hna⟩ := not_mem_allDecls hnd
    rcases hd with ((hdf | hdv) | hdi) | hda
    · exact absurd hdf hnf
    · have hpred := filter_pred_false_of_not_mem hdv hnv
      rw [decide_eq_false_iff_not] at hpred
      push_neg at hpred
      obtain ⟨c, hc, hcd⟩ := hpred
      have hname : d.name ∈ ((analyzeFile opts st.origin).filter
          (isUtilCand opts)).map (fun c => c.name) := by
        rw [hU] at hc ⊢
        obtain ⟨d', hd', rfl⟩ := List.mem_map.mp hc
        have hdd : d' = d := hcd
        subst hdd
        have hm := List.mem_map_of_mem (fun c : Candidate => c.name)
          (List.mem_map_of_mem (mkCand .variableDecl) hd')
        simpa [mkCand] using hm
      exact mem_addOrUpdateNamedImport_self _ _ _ _ hname
    · refine mem_addOrUpdateNamedImport_of_mem _ _ _ _ ?_
      have hname : d.name ∈ ((analyzeFile opts st.origin).filter isTypeCand).map
          (fun c => c.name) := by
        rw [hT]
        exact List.mem_map_of_mem _
          (List.mem_append_left _ (List.mem_map_of_mem (mkCand .interface) hdi))
      exact mem_addOrUpdateNamedImport_self _ _ _ _ hname
    · refine mem_addOrUpdateNamedImport_of_mem _ _ _ _ ?_
      have hname : d.name ∈ ((analyzeFile opts st.origin).filter isTypeCand).map
          (fun c => c.name) := by
        rw [hT]
        exact List.mem_map_of_mem _
          (List.mem_append_right _ (List.mem_map_of_mem (mkCand .typeAlias) hda))
      exact mem_addOrUpdateNamedImport_self _ _ _ _ hname

end TsMorph


namespace TsMorph

/-- Pass 2 resolves every name it removes from the component body. -/
theorem extractHelperFunctions_no_orphan (opts : Pass2Options) (st : Pass2State) :
    ∀ n, n ∈ bodyNames st.body →
      n ∉ bodyNames (extractHelperFunctions opts st).body →
      ∃ b ∈ (extractHelperFunctions opts st).imports, n ∈ b.2 := by
  intro n hn hnn
  unfold extractHelperFunctions at hnn ⊢
  by_cases h : (st.body.filterMap (helperOf opts.helperNamePattern)).isEmpty
  · simp only [if_pos h] at hnn ⊢
    exact absurd hn hnn
  · simp only [if_neg h] at hnn ⊢
    by_cases hmem : n ∈ (st.body.filterMap (helperOf opts.helperNamePattern)).map
        (fun x => x.1)
    · exact mem_addOrUpdateNamedImport_self _ _ _ _ hmem
    · exfalso
      apply hnn
      obtain ⟨s, hs, hsn⟩ := List.mem_filterMap.mp hn
      apply List.mem_filterMap.mpr
      refine ⟨s, List.mem_filter.mpr ⟨hs, ?_⟩, hsn⟩
      cases s with
      | varStmt n' t a lc =>
          have : n' = n := by simpa using hsn
          subst this
          simpa using hmem
      | other t => simp at hsn

end TsMorph

namespace TsMorph

/-! ## Claim theorems -/

/-- **C1**: running `TopLevelExtraction` twice in succession on the same
origin module with identical configuration: (i) the second run returns the
first run's state unchanged — in particular the import-binding set is
identical, with no duplicated bindings, and no already-exported candidate's
visibility changes; (ii) the second run finds zero new extraction candidates
(every candidate it finds was already found by the first run); (iii)
re-applying the export normalisation to an already-exported text is a
no-op. -/
theorem claim_idempotent_toplevel (opts : RefactorOptions) (st st1 : PipeState)
    (h : runPass opts allOk st = .ok st1) :
    runPass opts allOk st1 = .ok st1 ∧
    (∀ c ∈ analyzeFile opts st1.origin, c ∈ analyzeFile opts st.origin) ∧
    (∀ t : String, exportText (exportText t) = exportText t) := by
  have hst1 : runPassF opts st = st1 :=
    Except.ok.inj ((runPass_allOk opts st).symm.trans h)
  subst hst1
  refine ⟨?_, ?_, fun t => exportText_idem t⟩
  · rw [runPass_allOk, runPassF_idem]
  · obtain ⟨hI, hA, hF, hV, _⟩ := runPassF_origin_spec opts st
    exact analyzeFile_mono opts _ _ hF (fun d hd => (hV d hd).1) hI hA

/-- Witness for C1 at the sample module: the pass really is idempotent on a
concrete state. -/
theorem claim_idempotent_toplevel_witness :
    runPass sampleOptions allOk (runPassF sampleOptions sampleState) =
      .ok (runPassF sampleOptions sampleState) :=
  (claim_idempotent_toplevel sampleOptions sampleState
    (runPassF sampleOptions sampleState)
    (runPass_allOk sampleOptions sampleState)).1

/-- **C3**: after a top-level extraction pass (first conjunct) or a nested
extraction pass (second conjunct) completes, every declaration name the pass
removed from the origin module (resp. the composite's body) is resolved by
an import binding present in the origin afterwards. -/
theorem claim_no_orphaned_reference (opts : RefactorOptions) (st st1 : PipeState)
    (h : runPass opts allOk st = .ok st1)
    (p2opts : Pass2Options) (p2st : Pass2State) :
    (∀ d, d ∈ allDecls st.origin → d ∉ allDecls st1.origin →
      ∃ b ∈ st1.origin.imports, d.name ∈ b.2) ∧
    (∀ n, n ∈ bodyNames p2st.body →
      n ∉ bodyNames (extractHelperFunctions p2opts p2st).body →
      ∃ b ∈ (extractHelperFunctions p2opts p2st).imports, n ∈ b.2) := by
  have hst1 : runPassF opts st = st1 :=
    Except.ok.inj ((runPass_allOk opts st).symm.trans h)
  subst hst1
  exact ⟨runPassF_no_orphan opts st, extractHelperFunctions_no_orphan p2opts p2st⟩

/-- Witness for C3: the interface `User`, removed from the sample module by
the pass, is resolved by an import binding afterwards. -/
theorem claim_no_orphaned_reference_witness :
    ∃ b ∈ (runPassF sampleOptions sampleState).origin.imports,
      (Decl.mk "User" "interface User ..." 4).name ∈ b.2 :=
  (claim_no_orphaned_reference sampleOptions sampleState
      (runPassF sampleOptions sampleState)
      (runPass_allOk sampleOptions sampleState)
      samplePass2Options samplePass2State).1
    ⟨"User", "interface User ...", 4⟩ (by decide) (by decide)

end TsMorph

namespace TsMorph

/-! ## Import-merge correctness (C2) -/

theorem foldAdds_nil (spec : String) (imports : List ImportBinding) :
    foldAdds spec [] imports = imports := rfl

theorem foldAdds_cons (spec : String) (N : List String) (adds : List (List String))
    (imports : List ImportBinding) :
    foldAdds spec (N :: adds) imports =
      foldAdds spec adds (addOrUpdateNamedImport imports spec N) := rfl

theorem addsUnion_nil : addsUnion [] = ∅ := rfl

theorem addsUnion_cons (N : List String) (adds : List (List String)) :
    addsUnion (N :: adds) = N.toFinset ∪ addsUnion adds := rfl

/-- `addsUnion` only depends on the multiset of added name sets. -/
theorem addsUnion_perm {adds adds' : List (List String)} (h : adds'.Perm adds) :
    addsUnion adds' = addsUnion adds := by
  induction h with
  | nil => rfl
  | cons x _ ih => rw [addsUnion_cons, addsUnion_cons, ih]
  | swap x y l =>
      rw [addsUnion_cons, addsUnion_cons, addsUnion_cons, addsUnion_cons]
      rw [Finset.union_left_comm]
  | trans _ _ ih1 ih2 => exact ih1.trans ih2

/-- Updating a state whose unique binding for the specifier sits at the end
leaves the prefix untouched and merges into that binding. -/
theorem addOrUpdateNamedImport_pre (spec : String) (pre : List ImportBinding)
    (L N : List String) (hpre : ∀ b ∈ pre, b.1 ≠ spec) :
    addOrUpdateNamedImport (pre ++ [(spec, L)]) spec N =
      pre ++ [(spec, dedupFirst (L ++ N))] := by
  induction pre with
  | nil => simpa using addOrUpdateNamedImport_cons_eq (spec, L) [] N
  | cons hd tl ih =>
      rw [List.cons_append,
        addOrUpdateNamedImport_cons_ne _ _ _ _ (hpre hd (List.mem_cons_self _ _)),
        ih (fun b hb => hpre b (List.mem_cons_of_mem _ hb))]
      rfl

/-- Folding extraction steps over a state with a unique trailing binding for
the specifier: the prefix persists, the binding stays unique, stays
duplicate-free, and accumulates the union of the added name sets. -/
theorem foldAdds_pre (spec : String) (adds : List (List String)) :
    ∀ (pre : List ImportBinding) (L : List String),
      (∀ b ∈ pre, b.1 ≠ spec) → L.Nodup →
      ∃ M : List String,
        foldAdds spec adds (pre ++ [(spec, L)]) = pre ++ [(spec, M)] ∧
        M.Nodup ∧ M.toFinset = L.toFinset ∪ addsUnion adds := by
  induction adds with
  | nil =>
      intro pre L hpre hL
      exact ⟨L, rfl, hL, by rw [addsUnion_nil]; simp⟩
  | cons N adds ih =>
      intro pre L hpre hL
      rw [foldAdds_cons, addOrUpdateNamedImport_pre _ _ _ _ hpre]
      obtain ⟨M, hM, hMnd, hMfin⟩ := ih pre (dedupFirst (L ++ N)) hpre (dedupFirst_nodup _)
      refine ⟨M, hM, hMnd, ?_⟩
      rw [hMfin, dedupFirst_toFinset, addsUnion_cons, List.toFinset_append,
        Finset.union_assoc]

/-- Main import-merge result: from a state with no binding for the target
specifier, any nonempty sequence of adds yields exactly one binding for it,
whose name list is duplicate-free with the union of all added sets as its
set of names. -/
theorem foldAdds_result (spec : String) (adds : List (List String))
    (imports : List ImportBinding)
    (h0 : ∀ b ∈ imports, b.1 ≠ spec)
    (hne : adds ≠ [])
    (hnd : ∀ N ∈ adds, N.Nodup) :
    ((foldAdds spec adds imports).countP (fun b => b.1 == spec) = 1) ∧
    (∀ L, (spec, L) ∈ foldAdds spec adds imports →
      L.Nodup ∧ L.toFinset = addsUnion adds) := by
  cases adds with
  | nil => exact absurd rfl hne
  | cons N rest =>
      rw [foldAdds_cons, addOrUpdateNamedImport_not_found _ _ _ h0]
      obtain ⟨M, hM, hMnd, hMfin⟩ :=
        foldAdds_pre spec rest imports N h0 (hnd N (List.mem_cons_self _ _))
      rw [hM]
      constructor
      · rw [List.countP_append]
        have hz : imports.countP (fun b => b.1 == spec) = 0 :=
          List.countP_eq_zero.mpr (fun b hb => by simp [h0 b hb])
        simp [hz]
      · intro L hL
        rcases List.mem_append.mp hL with hL | hL
        · exact absurd rfl (h0 _ hL)
        · have : L = M := by simpa using hL
          subst this
          refine ⟨hMnd, ?_⟩
          rw [hMfin, addsUnion_cons]

/-- **C2**: for every sequence of extraction steps adding name sets
`N1, …, Nk` (`k ≥ 1`, each set duplicate-free) for the same target specifier
into an origin with no prior binding for it: exactly one import declaration
for that specifier results, its named-import list is duplicate-free, its set
of names is `N1 ∪ … ∪ Nk`, and the resulting name set does not depend on the
order of the steps. -/
theorem claim_import_merge_union (spec : String) (adds : List (List String))
    (imports : List ImportBinding)
    (h0 : ∀ b ∈ imports, b.1 ≠ spec)
    (hne : adds ≠ [])
    (hnd : ∀ N ∈ adds, N.Nodup) :
    ((foldAdds spec adds imports).countP (fun b => b.1 == spec) = 1) ∧
    (∀ L, (spec, L) ∈ foldAdds spec adds imports →
      L.Nodup ∧ L.toFinset = addsUnion adds) ∧
    (∀ adds', adds'.Perm adds →
      ∀ L, (spec, L) ∈ foldAdds spec adds' imports → L.toFinset = addsUnion adds) := by
  obtain ⟨hcount, hset⟩ := foldAdds_result spec adds imports h0 hne hnd
  refine ⟨hcount, hset, ?_⟩
  intro adds' hperm L hL
  have hne' : adds' ≠ [] := by
    intro hempty
    subst hempty
    exact hne (List.Perm.nil_eq hperm).symm
  have hnd' : ∀ N ∈ adds', N.Nodup := fun N hN => hnd N (hperm.mem_iff.mp hN)
  have := ((foldAdds_result spec adds' imports h0 hne' hnd').2 L hL).2
  rw [this, addsUnion_perm hperm]

/-- Witness for C2: two overlapping adds to one specifier from a state
holding an unrelated binding. -/
theorem claim_import_merge_union_witness :
    (foldAdds "./u" [["a", "b"], ["b", "c"]] [("./x", ["q"])]).countP
      (fun b => b.1 == "./u") = 1 :=
  (claim_import_merge_union "./u" [["a", "b"], ["b", "c"]] [("./x", ["q"])]
    (by decide) (by decide) (by decide)).1

end TsMorph

namespace TsMorph

/-! ## Persistence-failure behaviour (C4) -/

theorem extractTypes_diskOrigin (opts : RefactorOptions) (fl : SaveFlags)
    (cands : List Candidate) (st : PipeState) :
    (∀ s, extractTypes opts fl cands st = .ok s → s.diskOrigin = st.diskOrigin) ∧
    (∀ s, extractTypes opts fl cands st = .error s → s.diskOrigin = st.diskOrigin) := by
  unfold extractTypes
  by_cases h1 : (cands.filter isTypeCand).isEmpty <;> by_cases h2 : fl.typesOk <;>
    constructor <;> intro s hs <;> simp [h1, h2] at hs <;> subst hs <;> rfl

theorem extractUtilities_diskOrigin (opts : RefactorOptions) (fl : SaveFlags)
    (cands : List Candidate) (st : PipeState) :
    (∀ s, extractUtilities opts fl cands st = .ok s → s.diskOrigin = st.diskOrigin) ∧
    (∀ s, extractUtilities opts fl cands st = .error s → s.diskOrigin = st.diskOrigin) := by
  unfold extractUtilities
  by_cases h1 : (cands.filter (isUtilCand opts)).isEmpty <;> by_cases h2 : fl.utilsOk <;>
    constructor <;> intro s hs <;> simp [h1, h2] at hs <;> subst hs <;> rfl

theorem extractTypes_fails (opts : RefactorOptions) (fl : SaveFlags)
    (cands : List Candidate) (st : PipeState)
    (hfl : fl.typesOk = false) (hne : cands.filter isTypeCand ≠ []) :
    ∃ e, extractTypes opts fl cands st = .error e := by
  unfold extractTypes
  have h1 : (cands.filter isTypeCand).isEmpty = false := by
    simpa [List.isEmpty_iff] using hne
  simp [h1, hfl]

theorem extractUtilities_fails (opts : RefactorOptions) (fl : SaveFlags)
    (cands : List Candidate) (st : PipeState)
    (hfl : fl.utilsOk = false) (hne : cands.filter (isUtilCand opts) ≠ []) :
    ∃ e, extractUtilities opts fl cands st = .error e := by
  unfold extractUtilities
  have h1 : (cands.filter (isUtilCand opts)).isEmpty = false := by
    simpa [List.isEmpty_iff] using hne
  simp [h1, hfl]

/-- **C4**: failing to persist a target module is fatal for the pass and the
origin's persisted content is unchanged. (i) On every aborted pass the
persisted origin equals the one from before the pass, so the Origin Pruner's
in-memory removals never became durable; (ii) a failing types-file save with
type candidates present prevents the pass from succeeding; (iii) a failing
utils-file save with utility candidates present does likewise. -/
theorem claim_failed_target_save_fatal (opts : RefactorOptions) (fl : SaveFlags)
    (st : PipeState) :
    (∀ st', runPass opts fl st = .error st' → st'.diskOrigin = st.diskOrigin) ∧
    (fl.typesOk = false → (analyzeFile opts st.origin).filter isTypeCand ≠ [] →
      ∀ s, runPass opts fl st ≠ .ok s) ∧
    (fl.utilsOk = false → (analyzeFile opts st.origin).filter (isUtilCand opts) ≠ [] →
      ∀ s, runPass opts fl st ≠ .ok s) := by
  refine ⟨?_, ?_, ?_⟩
  · intro st' h
    simp only [runPass, Bind.bind, Except.bind] at h
    cases hE : extractTypes opts fl (analyzeFile opts st.origin) st with
    | error e =>
        rw [hE] at h
        cases h
        exact (extractTypes_diskOrigin opts fl _ st).2 _ hE
    | ok s1 =>
        simp only [hE] at h
        have h1 : s1.diskOrigin = st.diskOrigin :=
          (extractTypes_diskOrigin opts fl _ st).1 _ hE
        cases hUE : extractUtilities opts fl (analyzeFile opts st.origin) s1 with
        | error e =>
            simp only [hUE] at h
            cases h
            rw [(extractUtilities_diskOrigin opts fl _ s1).2 _ hUE, h1]
        | ok s2 =>
            simp only [hUE] at h
            have h2 : s2.diskOrigin = s1.diskOrigin :=
              (extractUtilities_diskOrigin opts fl _ s1).1 _ hUE
            unfold saveOrigin at h
            by_cases ho : fl.originOk
            · simp [ho] at h
            · simp [ho] at h
              subst h
              rw [h2, h1]
  · intro hfl hne s h
    obtain ⟨e, he⟩ := extractTypes_fails opts fl (analyzeFile opts st.origin) st hfl hne
    simp only [runPass, Bind.bind, Except.bind] at h
    rw [he] at h
    cases h
  · intro hfl hne s h
    simp only [runPass, Bind.bind, Except.bind] at h
    cases hE : extractTypes opts fl (analyzeFile opts st.origin) st with
    | error e =>
        rw [hE] at h
        cases h
    | ok s1 =>
        simp only [hE] at h
        obtain ⟨e, he⟩ :=
          extractUtilities_fails opts fl (analyzeFile opts st.origin) s1 hfl hne
        simp only [he] at h
        cases h


/-- Witness for C4: on the sample module with a failing types save, the pass
aborts and the persisted origin is exactly the pre-pass one. -/
theorem claim_failed_target_save_fatal_witness :
    sampleFailState.diskOrigin = sampleState.diskOrigin :=
  (claim_failed_target_save_fatal sampleOptions ⟨false, true, true⟩ sampleState).1
    sampleFailState rfl

end TsMorph

namespace TsMorph

/-! ## Characterising the best-effort annotation loops -/

/-- A `forEach` that appends a write and bumps the counter exactly when
`pick` fires equals a `filterMap`. -/
theorem writeFold_eq {α β : Type} (step : List β × Nat → α → List β × Nat)
    (pick : α → Option β)
    (hstep : ∀ acc d, step acc d =
      match pick d with
      | some b => (acc.1 ++ [b], acc.2 + 1)
      | none => acc)
    (l : List α) :
    ∀ (w : List β) (n : Nat),
      l.foldl step (w, n) = (w ++ l.filterMap pick, n + (l.filterMap pick).length) := by
  induction l with
  | nil => intro w n; simp
  | cons d l ih =>
      intro w n
      rw [List.foldl_cons, hstep]
      cases hp : pick d with
      | none => simp [List.filterMap_cons, hp, ih]
      | some b =>
          rw [ih]
          simp only [List.filterMap_cons, hp]
          rw [Prod.mk.injEq]
          refine ⟨by simp, by simp; omega⟩


theorem addReturnTypesVars_eq (decls : List AVarDecl) :
    addReturnTypesVars decls =
      (decls.filterMap returnTypePick, (decls.filterMap returnTypePick).length) := by
  unfold addReturnTypesVars
  have h := writeFold_eq
    (fun acc d =>
      if returnTypeCond d then
        if d.setOk then (acc.1 ++ [(d.name, d.inferredReturnText)], acc.2 + 1) else acc
      else acc)
    returnTypePick
    (fun acc d => by
      unfold returnTypePick
      by_cases hc : returnTypeCond d <;> by_cases ho : d.setOk <;> simp [hc, ho])
    decls [] 0
  simpa using h


theorem addReturnTypesFuncs_eq (funcs : List AFuncDecl) :
    addReturnTypesFuncs funcs =
      (funcs.filterMap funcReturnTypePick, (funcs.filterMap funcReturnTypePick).length) := by
  unfold addReturnTypesFuncs
  have h := writeFold_eq
    (fun acc f =>
      if funcReturnTypeCond f then
        if f.setOk then (acc.1 ++ [(f.name, f.inferredReturnText)], acc.2 + 1) else acc
      else acc)
    funcReturnTypePick
    (fun acc f => by
      unfold funcReturnTypePick
      by_cases hc : funcReturnTypeCond f <;> by_cases ho : f.setOk <;> simp [hc, ho])
    funcs [] 0
  simpa using h


theorem addParameterTypes_eq (params : List AParam) :
    addParameterTypes params =
      (params.filterMap paramPick, (params.filterMap paramPick).length) := by
  unfold addParameterTypes
  have h := writeFold_eq
    (fun acc p =>
      if paramCond p then
        if p.setOk then (acc.1 ++ [(p.name, p.inferredText)], acc.2 + 1) else acc
      else acc)
    paramPick
    (fun acc p => by
      unfold paramPick
      by_cases hc : paramCond p <;> by_cases ho : p.setOk <;> simp [hc, ho])
    params [] 0
  simpa using h



theorem fixAnyTypes_eq (decls : List AnyVarDecl) :
    fixAnyTypes decls =
      (decls.filterMap fixAnyPick, (decls.filterMap fixAnyPick).length) := by
  unfold fixAnyTypes
  have h := writeFold_eq
    (fun acc d =>
      match d.typeNodeText, d.initInferredText with
      | some tn, some t =>
          if tn == "any" && !(t == "any") && decide (t.length < 100) then
            if d.setOk then (acc.1 ++ [(d.name, t)], acc.2 + 1) else acc
          else acc
      | _, _ => acc)
    fixAnyPick
    (fun acc d => by
      unfold fixAnyPick
      rcases htn : d.typeNodeText with _ | tn <;>
        rcases hit : d.initInferredText with _ | t <;> simp only [htn, hit]
      by_cases hc : (tn == "any" && !(t == "any") && decide (t.length < 100)) = true <;>
        by_cases ho : d.setOk <;> simp [fixAnyCond, hc, ho])
    decls [] 0
  simpa using h


theorem improveTypeSpecificity_eq (decls : List SpecVarDecl) :
    improveTypeSpecificity decls =
      (decls.filterMap specificityPick, (decls.filterMap specificityPick).length) := by
  unfold improveTypeSpecificity
  have h := writeFold_eq
    (fun acc d =>
      match d.initStringLiteral with
      | some v =>
          if d.typeNodeText == some "string" &&
              d.varStatementKind == some VarDeclKind.constKind then
            if d.setOk then (acc.1 ++ [(d, literalTypeText v)], acc.2 + 1) else acc
          else acc
      | none => acc)
    specificityPick
    (fun acc d => by
      unfold specificityPick
      rcases hv : d.initStringLiteral with _ | v <;> simp only [hv]
      by_cases hc : (d.typeNodeText == some "string" &&
          d.varStatementKind == some VarDeclKind.constKind) <;>
        by_cases ho : d.setOk <;> simp [hc, ho])
    decls [] 0
  simpa using h

end TsMorph

namespace TsMorph

/-! ## The annotation complexity filter (C5) -/

/-- **C5**: every annotation writer of the Type Reconciler writes a rendered
type text only when it differs from the excluded broad type (`void` for
return types, `any` for parameter types and `any`-replacements) and its
length is strictly below 100; a text of length exactly 100 is never written;
a text of length 99 passing the other filters (and whose tooling write
succeeds) is written. -/
theorem claim_annotation_filter (vars : List AVarDecl) (funcs : List AFuncDecl)
    (params : List AParam) (anys : List AnyVarDecl) :
    (∀ n t, (n, t) ∈ (addReturnTypes vars funcs).1 → t ≠ "void" ∧ t.length < 100) ∧
    (∀ n t, (n, t) ∈ (addParameterTypes params).1 → t ≠ "any" ∧ t.length < 100) ∧
    (∀ n t, (n, t) ∈ (fixAnyTypes anys).1 → t ≠ "any" ∧ t.length < 100) ∧
    (∀ n t, t.length = 100 →
      (n, t) ∉ (addReturnTypes vars funcs).1 ∧
      (n, t) ∉ (addParameterTypes params).1 ∧ (n, t) ∉ (fixAnyTypes anys).1) ∧
    (∀ d ∈ vars, d.isArrowInit = true → d.hasReturnTypeNode = false →
      d.inferredReturnText ≠ "void" → d.inferredReturnText.length = 99 →
      d.setOk = true → (d.name, d.inferredReturnText) ∈ (addReturnTypes vars funcs).1) ∧
    (∀ p ∈ params, p.hasTypeNode = false → p.inferredText ≠ "any" →
      p.inferredText.length = 99 → p.setOk = true →
      (p.name, p.inferredText) ∈ (addParameterTypes params).1) := by
  have hvars : ∀ n t, (n, t) ∈ (addReturnTypesVars vars).1 →
      t ≠ "void" ∧ t.length < 100 := by
    intro n t h
    rw [addReturnTypesVars_eq] at h
    rcases List.mem_filterMap.mp h with ⟨d, _, hp⟩
    unfold returnTypePick at hp
    by_cases hcond : (returnTypeCond d && d.setOk) = true
    · rw [if_pos hcond] at hp
      obtain ⟨hn, ht⟩ := Prod.mk.injEq _ _ _ _ ▸ Option.some.inj hp
      subst ht
      unfold returnTypeCond at hcond
      simp only [Bool.and_eq_true, Bool.not_eq_true', beq_eq_false_iff_ne,
        decide_eq_true_eq] at hcond
      exact ⟨hcond.1.1.2, hcond.1.2⟩
    · rw [if_neg hcond] at hp
      cases hp
  have hfuncs : ∀ n t, (n, t) ∈ (addReturnTypesFuncs funcs).1 →
      t ≠ "void" ∧ t.length < 100 := by
    intro n t h
    rw [addReturnTypesFuncs_eq] at h
    rcases List.mem_filterMap.mp h with ⟨f, _, hp⟩
    unfold funcReturnTypePick at hp
    by_cases hcond : (funcReturnTypeCond f && f.setOk) = true
    · rw [if_pos hcond] at hp
      obtain ⟨hn, ht⟩ := Prod.mk.injEq _ _ _ _ ▸ Option.some.inj hp
      subst ht
      unfold funcReturnTypeCond at hcond
      simp only [Bool.and_eq_true, Bool.not_eq_true', beq_eq_false_iff_ne,
        decide_eq_true_eq] at hcond
      exact ⟨hcond.1.1.2, hcond.1.2⟩
    · rw [if_neg hcond] at hp
      cases hp
  have hret : ∀ n t, (n, t) ∈ (addReturnTypes vars funcs).1 →
      t ≠ "void" ∧ t.length < 100 := by
    intro n t h
    rcases List.mem_append.mp h with h | h
    · exact hvars n t h
    · exact hfuncs n t h
  have hpar : ∀ n t, (n, t) ∈ (addParameterTypes params).1 →
      t ≠ "any" ∧ t.length < 100 := by
    intro n t h
    rw [addParameterTypes_eq] at h
    rcases List.mem_filterMap.mp h with ⟨p, _, hp⟩
    unfold paramPick at hp
    by_cases hcond : (paramCond p && p.setOk) = true
    · rw [if_pos hcond] at hp
      obtain ⟨hn, ht⟩ := Prod.mk.injEq _ _ _ _ ▸ Option.some.inj hp
      subst ht
      unfold paramCond at hcond
      simp only [Bool.and_eq_true, Bool.not_eq_true', beq_eq_false_iff_ne,
        decide_eq_true_eq] at hcond
      exact ⟨hcond.1.1.2, hcond.1.2⟩
    · rw [if_neg hcond] at hp
      cases hp
  have hany : ∀ n t, (n, t) ∈ (fixAnyTypes anys).1 →
      t ≠ "any" ∧ t.length < 100 := by
    intro n t h
    rw [fixAnyTypes_eq] at h
    rcases List.mem_filterMap.mp h with ⟨d, _, hp⟩
    unfold fixAnyPick at hp
    rcases htn : d.typeNodeText with _ | tn <;>
      rcases hit : d.initInferredText with _ | t' <;> simp only [htn, hit] at hp <;>
      try cases hp
    by_cases hcond : (fixAnyCond tn t' && d.setOk) = true
    · rw [if_pos hcond] at hp
      obtain ⟨hn, ht⟩ := Prod.mk.injEq _ _ _ _ ▸ Option.some.inj hp
      subst ht
      simp only [fixAnyCond, Bool.and_eq_true, Bool.not_eq_true',
        beq_eq_false_iff_ne, decide_eq_true_eq] at hcond
      refine ⟨?_, ?_⟩ <;> tauto
    · rw [if_neg hcond] at hp
      cases hp
  refine ⟨hret, hpar, hany, ?_, ?_, ?_⟩
  · intro n t hlen
    refine ⟨fun h => ?_, fun h => ?_, fun h => ?_⟩
    · have := (hret n t h).2
      omega
    · have := (hpar n t h).2
      omega
    · have := (hany n t h).2
      omega
  · intro d hd h1 h2 h3 h4 h5
    apply List.mem_append.mpr
    left
    rw [addReturnTypesVars_eq]
    apply List.mem_filterMap.mpr
    refine ⟨d, hd, ?_⟩
    unfold returnTypePick returnTypeCond
    have hb : (d.inferredReturnText == "void") = false := by
      simp [h3]
    rw [h1, h2, h5, hb]
    simp [h4]
  · intro p hp h1 h2 h3 h4
    rw [addParameterTypes_eq]
    apply List.mem_filterMap.mpr
    refine ⟨p, hp, ?_⟩
    unfold paramPick paramCond
    have hb : (p.inferredText == "any") = false := by
      simp [h2]
    rw [h1, h4, hb]
    simp [h3]

/-- Witness for C5 at the 99/100 boundary: the 99-character inferred type is
written, the 100-character one is not. -/
theorem claim_annotation_filter_witness :
    ("under", text99) ∈ (addReturnTypes boundaryDecls []).1 ∧
    ("over", text100) ∉ (addReturnTypes boundaryDecls []).1 := by
  constructor
  · exact (claim_annotation_filter boundaryDecls [] [] []).2.2.2.2.1
      ⟨"under", true, false, text99, true⟩ (by decide) rfl rfl (by decide) (by decide) rfl
  · intro h
    have := ((claim_annotation_filter boundaryDecls [] [] []).1 "over" text100 h).2
    have hlen : text100.length = 100 := by decide
    omega

end TsMorph

namespace TsMorph

/-! ## String-literal sharpening (C6) -/

theorem parseTypeText_string : parseTypeText "string" = TSType.str := by
  unfold parseTypeText
  rw [if_pos rfl]

theorem parseTypeText_literal (v : String) :
    parseTypeText (literalTypeText v) = TSType.lit v := by
  have hdata : (literalTypeText v).data = Char.ofNat 39 :: (v.data ++ [Char.ofNat 39]) := by
    simp [literalTypeText, sq, String.singleton, String.data_append]
  unfold parseTypeText
  rw [if_neg ?hne]
  case hne =>
    intro h
    have hh := congrArg (fun s => s.data.head?) h
    dsimp only at hh
    rw [hdata] at hh
    simp only [List.head?_cons] at hh
    exact absurd (Option.some.inj hh) (by decide)
  rw [if_pos ?hc]
  case hc =>
    rw [hdata]
    simp only [Bool.and_eq_true, decide_eq_true_eq]
    refine ⟨⟨?_, ?_⟩, ?_⟩
    · simp
    · simp
    · rw [← List.cons_append, List.getLast?_concat]
      simp
  rw [hdata]
  simp

/-- **C6**: (completeness) every variable declaration in a `const`-kind
statement with a string-literal initializer whose explicit declared type is
the general `string` type, and whose `setType` write succeeds, IS narrowed
by the Type Reconciler to the exact literal value's type; (soundness) every
narrowing the Type Reconciler performs is of that shape, writes exactly the
literal type of the initializer's value, and the value space of the written
type is a subset of the value space of the declared type before
reconciliation. -/
theorem claim_string_literal_sharpening (decls : List SpecVarDecl) :
    (∀ d ∈ decls, ∀ v, d.initStringLiteral = some v →
      d.typeNodeText = some "string" →
      d.varStatementKind = some VarDeclKind.constKind → d.setOk = true →
      (d, literalTypeText v) ∈ (improveTypeSpecificity decls).1) ∧
    (∀ d nt, (d, nt) ∈ (improveTypeSpecificity decls).1 →
      d.typeNodeText = some "string" ∧
      d.varStatementKind = some VarDeclKind.constKind ∧
      ∃ v, d.initStringLiteral = some v ∧ nt = literalTypeText v ∧
        parseTypeText nt = TSType.lit v ∧
        valueSpace (parseTypeText nt) ⊆
          valueSpace (parseTypeText "string")) := by
  constructor
  · intro d hd v hv htn hk hok
    rw [improveTypeSpecificity_eq]
    apply List.mem_filterMap.mpr
    refine ⟨d, hd, ?_⟩
    unfold specificityPick
    simp only [hv]
    rw [if_pos (by simp [htn, hk, hok])]
  · intro d nt h
    rw [improveTypeSpecificity_eq] at h
    rcases List.mem_filterMap.mp h with ⟨d', hd', hp⟩
    unfold specificityPick at hp
    rcases hv : d'.initStringLiteral with _ | v <;> simp only [hv] at hp
    · cases hp
    · by_cases hcond : ((d'.typeNodeText == some "string" &&
          d'.varStatementKind == some VarDeclKind.constKind) && d'.setOk) = true
      · rw [if_pos hcond] at hp
        obtain ⟨hd, hnt⟩ := Prod.mk.injEq _ _ _ _ ▸ Option.some.inj hp
        subst hd
        subst hnt
        simp only [Bool.and_eq_true, beq_iff_eq] at hcond
        refine ⟨hcond.1.1, hcond.1.2, v, hv, rfl, parseTypeText_literal v, ?_⟩
        rw [parseTypeText_literal, parseTypeText_string]
        exact fun x _ => Set.mem_univ x
      · rw [if_neg hcond] at hp
        cases hp

/-- Witness for C6: `const role: string = 'admin'` is narrowed (the write
appears in the reconciler's output) and the narrowing only shrinks the value
space. -/
theorem claim_string_literal_sharpening_witness :
    ((⟨"role", some "string", some "admin", some VarDeclKind.constKind,
        true⟩ : SpecVarDecl), literalTypeText "admin") ∈
      (improveTypeSpecificity
        [⟨"role", some "string", some "admin", some VarDeclKind.constKind, true⟩]).1 ∧
    valueSpace (parseTypeText (literalTypeText "admin")) ⊆
      valueSpace (parseTypeText "string") := by
  have hmem :=
    (claim_string_literal_sharpening
        [⟨"role", some "string", some "admin", some VarDeclKind.constKind, true⟩]).1
      ⟨"role", some "string", some "admin", some VarDeclKind.constKind, true⟩
      (by decide) "admin" rfl rfl rfl rfl
  refine ⟨hmem, ?_⟩
  obtain ⟨-, -, v, -, -, -, hsub⟩ :=
    (claim_string_literal_sharpening
        [⟨"role", some "string", some "admin", some VarDeclKind.constKind, true⟩]).2
      ⟨"role", some "string", some "admin", some VarDeclKind.constKind, true⟩
      (literalTypeText "admin") hmem
  exact hsub

end TsMorph

namespace TsMorph

/-! ## Best-effort error handling (C7) -/

/-- A failing `setIsExported` anywhere in the list makes the whole
`ensureTypeExports` run raise instead of returning a count. -/
theorem ensureTypeExportsGo_aborts (todo : List ATypeDecl) :
    ∀ (done : List ATypeDecl) (n : Nat),
      (∃ d ∈ todo, d.isExported = false ∧ d.setOk = false) →
      ∀ res, ensureTypeExportsGo done todo n ≠ .ok res := by
  induction todo with
  | nil =>
      intro done n h
      simp at h
  | cons d rest ih =>
      intro done n h res
      unfold ensureTypeExportsGo
      by_cases he : d.isExported
      · rw [if_pos he]
        apply ih
        rcases h with ⟨d', hd', h1, h2⟩
        rcases List.mem_cons.mp hd' with rfl | hd'
        · rw [he] at h1
          cases h1
        · exact ⟨d', hd', h1, h2⟩
      · rw [if_neg he]
        by_cases hs : d.setOk
        · rw [if_pos hs]
          apply ih
          rcases h with ⟨d', hd', h1, h2⟩
          rcases List.mem_cons.mp hd' with rfl | hd'
          · rw [hs] at h2
            cases h2
          · exact ⟨d', hd', h1, h2⟩
        · rw [if_neg hs]
          intro hcontra
          cases hcontra

/-- Counterexample to C7 as stated: in `ensureTypeExports` (which has no
per-item try/catch) a failing visibility change on `B` aborts the whole
pass — the run raises with `C` left unprocessed and unexported, instead of
skipping only `B` and continuing. -/
theorem claim_best_effort_counterexample :
    ensureTypeExports true exportSample =
      .error ([⟨"A", true, true⟩, ⟨"B", false, false⟩, ⟨"C", false, true⟩], 1) := by
  rfl

/-- **C7 (amended)**: the annotation writers (return types here as the cited
representative, and parameter types) are per-item guarded — a failing write
skips exactly that item, is not counted, and the loop continues over the
rest; but the export-visibility loop of `ensureTypeExports` is unguarded — a
single failing `setIsExported` makes the whole pass raise. -/
theorem claim_best_effort_amended (l₁ l₂ : List AVarDecl) (bad : AVarDecl)
    (hbad : bad.setOk = false)
    (p₁ p₂ : List AParam) (badp : AParam) (hbadp : badp.setOk = false)
    (decls : List ATypeDecl)
    (hfail : ∃ d ∈ decls, d.isExported = false ∧ d.setOk = false) :
    (addReturnTypesVars (l₁ ++ bad :: l₂)).1 =
      (addReturnTypesVars l₁).1 ++ (addReturnTypesVars l₂).1 ∧
    (addReturnTypesVars (l₁ ++ bad :: l₂)).2 =
      (addReturnTypesVars l₁).2 + (addReturnTypesVars l₂).2 ∧
    (addParameterTypes (p₁ ++ badp :: p₂)).1 =
      (addParameterTypes p₁).1 ++ (addParameterTypes p₂).1 ∧
    (∀ res, ensureTypeExports true decls ≠ .ok res) := by
  have hpickbad : returnTypePick bad = none := by
    unfold returnTypePick
    simp [hbad]
  have hpickbadp : paramPick badp = none := by
    unfold paramPick
    simp [hbadp]
  refine ⟨?_, ?_, ?_, ?_⟩
  · rw [addReturnTypesVars_eq, addReturnTypesVars_eq, addReturnTypesVars_eq]
    simp [List.filterMap_append, List.filterMap_cons, hpickbad]
  · rw [addReturnTypesVars_eq, addReturnTypesVars_eq, addReturnTypesVars_eq]
    simp [List.filterMap_append, List.filterMap_cons, hpickbad]
  · rw [addParameterTypes_eq, addParameterTypes_eq, addParameterTypes_eq]
    simp [List.filterMap_append, List.filterMap_cons, hpickbadp]
  · intro res
    unfold ensureTypeExports
    rw [if_pos rfl]
    exact ensureTypeExportsGo_aborts decls [] 0 hfail res

/-- Witness for the amended C7: a concrete failing return-type write is
skipped while both neighbours are processed. -/
theorem claim_best_effort_amended_witness :
    (addReturnTypesVars ([⟨"f", true, false, "number", true⟩] ++
        (⟨"g", true, false, "number", false⟩ : AVarDecl) ::
        [⟨"h", true, false, "number", true⟩])).1 =
      (addReturnTypesVars [⟨"f", true, false, "number", true⟩]).1 ++
        (addReturnTypesVars [⟨"h", true, false, "number", true⟩]).1 :=
  (claim_best_effort_amended [⟨"f", true, false, "number", true⟩]
    [⟨"h", true, false, "number", true⟩] ⟨"g", true, false, "number", false⟩ rfl
    [] [] ⟨"p", false, "string", false⟩ rfl exportSample (by decide)).1

end TsMorph

namespace TsMorph

/-! ## Module Writer vs pre-existing content (C8) -/

theorem extractUtilitiesF_diskTypes (opts : RefactorOptions) (cands : List Candidate)
    (st : PipeState) :
    (extractUtilitiesF opts cands st).diskTypes = st.diskTypes := by
  unfold extractUtilitiesF
  by_cases h : (cands.filter (isUtilCand opts)).isEmpty <;> simp [h]

set_option maxRecDepth 8192 in
/-- Counterexample to C8 as stated: the top-level pass's Module Writer
overwrites the target types module — prior persisted content `"zzz"` is not
contained in the newly persisted content. -/
theorem claim_module_writer_merge_counterexample :
    sampleState.diskTypes = some "zzz" ∧
    (runPassF sampleOptions sampleState).diskTypes =
      some (typesFileContent
        ((analyzeFile sampleOptions sampleModule).filter isTypeCand)) ∧
    ¬ ("zzz".data <:+:
        ((runPassF sampleOptions sampleState).diskTypes.getD "").data) := by
  refine ⟨rfl, by decide, by decide⟩

/-- **C8 (amended)**: only the nested pass merges with pre-existing target
content — when the utils file is registered with content `c`, the written
file is `c` plus a newline plus the exported helpers, so `c` survives as a
prefix.  The top-level pass instead recreates the types file from the
current candidates alone: its persisted content is a function of the
candidates only, identical for every prior persisted content. -/
theorem claim_module_writer_merge_amended (p2opts : Pass2Options) (p2st : Pass2State)
    (c : String) (hc : p2st.utilsProject = some c)
    (hhelp : p2st.body.filterMap (helperOf p2opts.helperNamePattern) ≠ [])
    (opts : RefactorOptions) (st : PipeState)
    (ht : (analyzeFile opts st.origin).filter isTypeCand ≠ []) :
    ((extractHelperFunctions p2opts p2st).diskUtils =
      some (c ++ "\n" ++ "\n\n".intercalate
        ((p2st.body.filterMap (helperOf p2opts.helperNamePattern)).map
          (fun h => pass2ExportText h.2))) ∧
     c.data <+: ((extractHelperFunctions p2opts p2st).diskUtils.getD "").data) ∧
    (∀ prior : Option String,
      (runPassF opts { st with diskTypes := prior }).diskTypes =
        some (typesFileContent ((analyzeFile opts st.origin).filter isTypeCand))) := by
  constructor
  · have hne : (p2st.body.filterMap (helperOf p2opts.helperNamePattern)).isEmpty = false := by
      simpa [List.isEmpty_iff] using hhelp
    unfold extractHelperFunctions
    rw [if_neg (by simp [hne])]
    unfold pass2ReadUtilsBase
    rw [hc]
    refine ⟨rfl, ?_⟩
    simp only [Option.getD_some, String.data_append]
    rw [List.append_assoc]
    exact List.prefix_append _ _
  · intro prior
    unfold runPassF
    rw [extractUtilitiesF_diskTypes]
    have : ({ st with diskTypes := prior } : PipeState).origin = st.origin := rfl
    rw [extractTypesF_of_ne _ _ _ (by rw [this]; exact ht)]

/-- Witness for the amended C8: concrete append-and-preserve on pass 2, and
prior-content-independence of the pass-1 types write on the sample module. -/
theorem claim_module_writer_merge_amended_witness :
    ({ samplePass2State with utilsProject := some "old" } : Pass2State).utilsProject =
        some "old" ∧
    "old".data <+:
      ((extractHelperFunctions samplePass2Options
          { samplePass2State with utilsProject := some "old" }).diskUtils.getD "").data :=
  ⟨rfl,
    ((claim_module_writer_merge_amended samplePass2Options
        { samplePass2State with utilsProject := some "old" } "old" rfl (by decide)
        sampleOptions sampleState (by decide)).1).2⟩

end TsMorph

namespace TsMorph

/-! ## Nested extraction: name pattern and created-file content (C9, C10) -/

theorem helperOf_mapLineCounts (p : String → Bool) (f : Nat → Nat) (s : NestedStmt) :
    helperOf p (mapLineCounts f s) = helperOf p s := by
  cases s <;> rfl

/-- **C9**: in the nested pass, among body statements that are
arrow-function variable bindings, a name-pattern match is necessary and
sufficient for extraction; extraction is independent of every statement's
line count (no threshold applies); and on the scenario body with pattern
`^(validate|get)`, exactly `validateForm` and `getRoleBadgeColor` are
extracted while `unrelatedHelper` stays in the composite body. -/
theorem claim_nested_pattern_filter (opts : Pass2Options) (st : Pass2State) :
    (∀ name text lc, NestedStmt.varStmt name text true lc ∈ st.body →
      (name ∈ pass2ExtractedNames opts st ↔ opts.helperNamePattern name = true)) ∧
    (∀ f : Nat → Nat,
      pass2ExtractedNames opts { st with body := st.body.map (mapLineCounts f) } =
        pass2ExtractedNames opts st) ∧
    (pass2ExtractedNames samplePass2Options samplePass2State =
      ["validateForm", "getRoleBadgeColor"]) ∧
    ((extractHelperFunctions samplePass2Options samplePass2State).body =
      [.varStmt "unrelatedHelper" "const unrelatedHelper = () => 2" true 5]) := by
  refine ⟨?_, ?_, by decide, by decide⟩
  · intro name text lc hmem
    constructor
    · intro hin
      unfold pass2ExtractedNames at hin
      rcases List.mem_map.mp hin with ⟨pair, hpair, hfst⟩
      rcases List.mem_filterMap.mp hpair with ⟨s, _, hs⟩
      cases s with
      | varStmt n' t' a' lc' =>
          simp only [helperOf] at hs
          by_cases hcond : (a' && opts.helperNamePattern n') = true
          · rw [if_pos hcond] at hs
            have hpair2 : pair = (n', t') := (Option.some.inj hs).symm
            subst hpair2
            simp only at hfst
            subst hfst
            exact ((Bool.and_eq_true _ _) ▸ hcond).2
          · rw [if_neg hcond] at hs
            cases hs
      | other t' =>
          simp only [helperOf] at hs
          cases hs
    · intro hpat
      unfold pass2ExtractedNames
      apply List.mem_map.mpr
      refine ⟨(name, text), List.mem_filterMap.mpr ⟨.varStmt name text true lc, hmem, ?_⟩,
        rfl⟩
      simp only [helperOf]
      rw [if_pos (by simp [hpat])]
  · intro f
    unfold pass2ExtractedNames
    have : ({ st with body := st.body.map (mapLineCounts f) } : Pass2State).body =
        st.body.map (mapLineCounts f) := rfl
    rw [this, List.filterMap_map]
    congr 1
    apply List.filterMap_congr
    intro s _
    exact helperOf_mapLineCounts _ f s

/-- Witness for C9: `getRoleBadgeColor` is extracted exactly because it
matches the pattern. -/
theorem claim_nested_pattern_filter_witness :
    "getRoleBadgeColor" ∈
      pass2ExtractedNames samplePass2Options samplePass2State :=
  ((claim_nested_pattern_filter samplePass2Options samplePass2State).1
    "getRoleBadgeColor" "const getRoleBadgeColor = () => 1" 4 (by decide)).mpr
    (by decide)

/-- **C10**: when the nested pass creates the utilities file because no
source file is registered at the utilities path, the written file is exactly
a leading newline followed by the exported helper statements; it does not
carry the header comment; and the written content is the same for every
content of the types file, because `getSourceFile` returns `none` rather
than raising, so the catch-branch that would build the header and the
type-only import never runs. -/
theorem claim_pass2_created_file_content (opts : Pass2Options) (st : Pass2State)
    (hnone : st.utilsProject = none)
    (hfound : st.body.filterMap (helperOf opts.helperNamePattern) ≠ []) :
    (extractHelperFunctions opts st).diskUtils =
      some ("\n" ++ "\n\n".intercalate
        ((st.body.filterMap (helperOf opts.helperNamePattern)).map
          (fun h => pass2ExportText h.2))) ∧
    strStarts "/**" (((extractHelperFunctions opts st).diskUtils).getD "") = false ∧
    (∀ tp : Option (List String),
      (extractHelperFunctions opts { st with typesProject := tp }).diskUtils =
        (extractHelperFunctions opts st).diskUtils) := by
  have hne : (st.body.filterMap (helperOf opts.helperNamePattern)).isEmpty = false := by
    simpa [List.isEmpty_iff] using hfound
  have hmain : (extractHelperFunctions opts st).diskUtils =
      some ("\n" ++ "\n\n".intercalate
        ((st.body.filterMap (helperOf opts.helperNamePattern)).map
          (fun h => pass2ExportText h.2))) := by
    unfold extractHelperFunctions
    rw [if_neg (by simp [hne])]
    unfold pass2ReadUtilsBase
    rw [hnone]
    simp
  refine ⟨hmain, ?_, ?_⟩
  · rw [hmain]
    unfold strStarts
    rw [Option.getD_some, String.data_append]
    have : ("\n" : String).data = ['\n'] := rfl
    rw [this]
    simp [List.isPrefixOf]
  · intro tp
    rw [hmain]
    have hnone' : ({ st with typesProject := tp } : Pass2State).utilsProject = none := hnone
    have hbody : ({ st with typesProject := tp } : Pass2State).body = st.body := rfl
    unfold extractHelperFunctions
    rw [hbody, if_neg (by simp [hne])]
    unfold pass2ReadUtilsBase
    rw [hnone']
    simp

/-- Witness for C10 on the scenario body: the created utils file is the
newline plus the two exported helpers, with no header. -/
theorem claim_pass2_created_file_content_witness :
    (extractHelperFunctions samplePass2Options samplePass2State).diskUtils =
      some ("\n" ++ "\n\n".intercalate
        ((sampleBody.filterMap (helperOf samplePass2Options.helperNamePattern)).map
          (fun h => pass2ExportText h.2))) :=
  (claim_pass2_created_file_content samplePass2Options samplePass2State rfl
    (by decide)).1

end TsMorph
